import Mathlib

/-!
# Verification of the Shawty clip-selection core

A shallow embedding of the clip-selection pipeline
(`src/llm/agent.py`, `src/utils/clip_refiner.py`) in Lean 4.

Conventions of the embedding:
* Python floats are modelled as exact rationals (`ℚ`).
* Fallible code (functions that can raise) returns `Option`.
* Python lists become `List`, in-place mutation becomes explicit
  state passing, and `dict` insertion-ordered maps become
  association lists.
* The opaque language-model calls are modelled as abstract function
  parameters (their replies / parse outcomes are universally
  quantified).
-/

set_option maxRecDepth 100000

namespace Shawty


/-! ## Basic numeric helpers -/

/-- Python `int(x)` on a float: truncation toward zero. -/
def intTrunc (q : ℚ) : ℤ :=
  if 0 ≤ q then ⌊q⌋ else ⌈q⌉

/-- Python `round(x, 2)`: round to the nearest hundredth, ties to even
(the idealized decimal version of Python's float rounding). -/
def pyRound2 (q : ℚ) : ℚ :=
  let x : ℚ := q * 100
  let n : ℤ :=
    if x - ⌊x⌋ < 1/2 then ⌊x⌋
    else if (1:ℚ)/2 < x - ⌊x⌋ then ⌊x⌋ + 1
    else if Even ⌊x⌋ then ⌊x⌋ else ⌊x⌋ + 1
  (n : ℚ) / 100

/-- `min` of a list of rationals, as in Python `min(...)` on a
nonempty generator ( `0` as junk value for the empty list). -/
def listMin (l : List ℚ) : ℚ :=
  match l with
  | [] => 0
  | a :: t => t.foldl min a

/-- `max` of a list of rationals (junk value `0` for the empty list). -/
def listMax (l : List ℚ) : ℚ :=
  match l with
  | [] => 0
  | a :: t => t.foldl max a

/-! ## Stable sorting

Python's `list.sort` is a stable sort.  A stable sort of a list with
respect to a total preorder is unique, so it is modelled by stable
insertion sort (structural recursion, so the kernel can evaluate it).
-/

/-- Insert `a` after every element `b` with `le b a` (stable
insertion). -/
def insertLe (le : α → α → Bool) (a : α) : List α → List α
  | [] => [a]
  | b :: t => if le b a then b :: insertLe le a t else a :: b :: t

/-- Stable sort by the boolean relation `le`. -/
def stableSortBy (le : α → α → Bool) (l : List α) : List α :=
  l.foldl (fun acc a => insertLe le a acc) []

/-! ## String helpers mirroring Python `str` methods -/

/-- Python whitespace test for the characters the source manipulates. -/
def pyIsSpace (c : Char) : Bool :=
  c = ' ' ∨ c = '\t' ∨ c = '\n' ∨ c = '\r'

/-- Python `str.strip(chars)`: drop the given characters from both ends. -/
def stripChars (s : String) (chars : List Char) : String :=
  let l := s.toList
  let l := l.dropWhile (fun c => chars.contains c)
  let l := (l.reverse.dropWhile (fun c => chars.contains c)).reverse
  String.mk l

/-- Python `str.strip()` (default whitespace). -/
def pyStrip (s : String) : String :=
  let l := s.toList
  let l := l.dropWhile pyIsSpace
  let l := (l.reverse.dropWhile pyIsSpace).reverse
  String.mk l

/-- Python `str.split()` with no argument: maximal runs of
non-whitespace characters (used for word counts). -/
def pyWords (s : String) : List String :=
  ((s.toList.splitOnP pyIsSpace).filter (· ≠ [])).map String.mk

/-- Python `str.startswith(p)`. -/
def pyStartsWith (s p : String) : Bool :=
  s.toList.take p.toList.length = p.toList

/-- Python `str.endswith(p)`. -/
def pyEndsWith (s p : String) : Bool :=
  s.toList.drop (s.toList.length - p.toList.length) = p.toList

/-- Python `s[:n]` on strings (slice of the first `n` code points). -/
def pyTake (s : String) (n : ℕ) : String :=
  String.mk (s.toList.take n)

/-- ASCII lower-casing of one character, written as a table so the
kernel can evaluate it. -/
def lowerChar (c : Char) : Char :=
  match c with
  | 'A' => 'a' | 'B' => 'b' | 'C' => 'c' | 'D' => 'd' | 'E' => 'e'
  | 'F' => 'f' | 'G' => 'g' | 'H' => 'h' | 'I' => 'i' | 'J' => 'j'
  | 'K' => 'k' | 'L' => 'l' | 'M' => 'm' | 'N' => 'n' | 'O' => 'o'
  | 'P' => 'p' | 'Q' => 'q' | 'R' => 'r' | 'S' => 's' | 'T' => 't'
  | 'U' => 'u' | 'V' => 'v' | 'W' => 'w' | 'X' => 'x' | 'Y' => 'y'
  | 'Z' => 'z' | c => c

/-- Python `str.lower()` (over the ASCII range the source relies on). -/
def pyLower (s : String) : String :=
  String.mk (s.toList.map lowerChar)

/-- Replace every occurrence of `pat` (structural worker with fuel,
so that the kernel can evaluate it). -/
def replaceAux (pat repl : List Char) : ℕ → List Char → List Char
  | 0, l => l
  | _ + 1, [] => []
  | fuel + 1, a :: t =>
    if pat.isPrefixOf (a :: t) then
      repl ++ replaceAux pat repl fuel ((a :: t).drop pat.length)
    else
      a :: replaceAux pat repl fuel t

/-- Python `str.replace(pat, repl)`: replace all occurrences. -/
def pyReplace (s pat repl : String) : String :=
  if pat.toList = [] then s
  else String.mk (replaceAux pat.toList repl.toList s.toList.length s.toList)

/-- Python `str.split(sep)` for a one-character separator, keeping
empty pieces (as Python does). -/
def pySplitOnChar (c : Char) (s : String) : List String :=
  (s.toList.splitOnP (· = c)).map String.mk

/-- Value of a string of decimal digits. -/
def digitsToNat (l : List Char) : ℕ :=
  l.foldl (fun acc c => acc * 10 + (c.toNat - '0'.toNat)) 0

/-- Python `int(s)` on a string: optional surrounding whitespace,
optional sign, decimal digits; `none` models a raised `ValueError`. -/
def pyInt? (s : String) : Option ℤ :=
  let l := (pyStrip s).toList
  let (sign, l) : ℤ × List Char :=
    match l with
    | '-' :: r => (-1, r)
    | '+' :: r => (1, r)
    | r => (1, r)
  if l ≠ [] ∧ l.all Char.isDigit then some (sign * digitsToNat l) else none

/-- Python `float(s)` on a string, for the decimal forms the source can
meet: optional surrounding whitespace, optional sign,
`digits[.digits]`, `.digits` or `digits.`, with an optional decimal
exponent; `none` models a raised `ValueError`. -/
def pyFloat? (s : String) : Option ℚ :=
  let l := (pyStrip s).toList
  let (sign, l) : ℚ × List Char :=
    match l with
    | '-' :: r => (-1, r)
    | '+' :: r => (1, r)
    | r => (1, r)
  -- split an optional exponent part
  let (mant, expPart) : List Char × Option (List Char) :=
    match l.splitOnP (fun c => c = 'e' ∨ c = 'E') with
    | [m] => (m, none)
    | [m, e] => (m, some e)
    | _ => (l, some [])  -- ≥ 2 exponent markers: forced parse failure
  let expVal? : Option ℤ :=
    match expPart with
    | none => some 0
    | some e =>
      let (esign, e) : ℤ × List Char :=
        match e with
        | '-' :: r => (-1, r)
        | '+' :: r => (1, r)
        | r => (1, r)
      if e ≠ [] ∧ e.all Char.isDigit then some (esign * digitsToNat e) else none
  match expVal? with
  | none => none
  | some ex =>
    match mant.splitOnP (· = '.') with
    | [ip] =>
      if ip ≠ [] ∧ ip.all Char.isDigit then
        some (sign * (digitsToNat ip : ℚ) * (10 : ℚ) ^ ex)
      else none
    | [ip, fp] =>
      if (ip ≠ [] ∨ fp ≠ []) ∧ ip.all Char.isDigit ∧ fp.all Char.isDigit then
        some (sign * ((digitsToNat ip : ℚ) + (digitsToNat fp : ℚ) / (10 : ℚ) ^ fp.length)
          * (10 : ℚ) ^ ex)
      else none
    | _ => none

/-! ## Time Parser (`ShortsAgent._parse_time_value`) -/

/-- A Python value as it reaches `_parse_time_value` or the score
coercion: a number (`int`/`float`; Python `bool` is an `int` subclass
and is modelled as `num 1`/`num 0`), a string, `None`, or anything
else. -/
inductive PyVal
  | num (q : ℚ)
  | str (s : String)
  | none_
  | other
deriving DecidableEq

/-- `fullmatch(r"\d+(\.\d+)?", raw)`: a plain decimal literal. -/
def isPlainDecimal (l : List Char) : Bool :=
  match l.splitOnP (· = '.') with
  | [ip] => ip ≠ [] ∧ ip.all Char.isDigit
  | [ip, fp] => ip ≠ [] ∧ ip.all Char.isDigit ∧ fp ≠ [] ∧ fp.all Char.isDigit
  | _ => false

/-- `ShortsAgent._parse_time_value`: parse seconds or timecode-like
strings into seconds (`none` = unparseable, the caller drops the
field). -/
def parseTimeValue (value : PyVal) : Option ℚ :=
  match value with
  | .num q => some q
  | .none_ => none
  | .other => none
  | .str s =>
    let raw := pyReplace (pyReplace (pyReplace (pyLower (pyStrip s)) "sec" "") "secs" "") "s" ""
    let raw := pyStrip raw
    if raw = "" then none
    else if isPlainDecimal raw.toList then pyFloat? raw
    else
      let parts? : Option (List String) :=
        if raw.toList.contains ':' then some (pySplitOnChar ':' raw)
        else if 2 ≤ raw.toList.count '.' then some (pySplitOnChar '.' raw)
        else none
      match parts? with
      | none => none
      | some parts =>
        match parts with
        | [p0, p1] =>
          match pyInt? p0, pyFloat? p1 with
          | some minutes, some seconds => some (minutes * 60 + seconds)
          | _, _ => none
        | [p0, p1, p2] =>
          match pyInt? p0, pyInt? p1, pyFloat? p2 with
          | some hours, some minutes, some seconds =>
            some (hours * 3600 + minutes * 60 + seconds)
          | _, _, _ => none
        | [p0, p1, p2, p3] =>
          match pyInt? p0, pyInt? p1, pyInt? p2, pyInt? p3 with
          | some hours, some minutes, some seconds, some millis =>
            some (hours * 3600 + minutes * 60 + seconds + (millis : ℚ) / 100)
          | _, _, _, _ => none
        | _ => none

/-! ## Schema Coercer (`_coerce_short_item`, `_patch_shorts_data`) -/

/-- The schema-relevant fields of a raw candidate dict.  A field that
is `none` is absent from the dict; a field `some .none_` is present
with value `None`. -/
structure RawShortDict where
  title? : Option PyVal := none
  reason? : Option PyVal := none
  start_time? : Option PyVal := none
  end_time? : Option PyVal := none
  score? : Option PyVal := none
deriving DecidableEq

/-- A raw candidate as `_coerce_short_item` distinguishes them:
a plain dict; a dict whose `"short"` key holds a dict; a dict whose
`"long"` key holds a dict (and `"short"`, if present, is not a dict);
a dict whose `"short"` key holds a string (and `"long"`, if present,
is not a dict); or a non-dict value. -/
inductive RawItem
  | plain (d : RawShortDict)
  | wrappedShort (d : RawShortDict)
  | wrappedLong (d : RawShortDict)
  | shortString (t : String) (d : RawShortDict)
  | nonDict
deriving DecidableEq

/-- `ShortsAgent._coerce_short_item`: unwrap common malformed shapes;
`none` models the non-dict result that the patch loop skips. -/
def coerceShortItem : RawItem → Option RawShortDict
  | .plain d => some d
  | .wrappedShort d => some d
  | .wrappedLong d => some d
  | .shortString t d =>
    -- builds a dict in which all five keys are present
    some { title? := some (.str t),
           reason? := some (d.reason?.getD (.str "")),
           start_time? := some (d.start_time?.getD .none_),
           end_time? := some (d.end_time?.getD .none_),
           score? := some (d.score?.getD (.num 0)) }
  | .nonDict => none

/-- `int(float(short.get("score", 0)))` with `except: score = 0`. -/
def pyScoreCoerce (v? : Option PyVal) : ℤ :=
  match v? with
  | none => 0
  | some (.num q) => intTrunc q
  | some (.str s) =>
    match pyFloat? s with
    | some q => intTrunc q
    | none => 0
  | some .none_ => 0
  | some .other => 0

/-- A candidate that survived `_patch_shorts_data`. -/
structure PatchedShort where
  title : PyVal
  reason : PyVal
  start_time : ℚ
  end_time : ℚ
  score : ℤ
deriving DecidableEq

/-- The body of the `_patch_shorts_data` loop for one raw candidate;
`none` models `continue` (the candidate is dropped). -/
def patchShortItem (item : RawItem) : Option PatchedShort :=
  match coerceShortItem item with
  | none => none
  | some d =>
    let title := d.title?.getD (.str "Untitled Segment")
    let reason := d.reason?.getD (.str "Strong standalone moment")
    match d.start_time? with
    | none => none
    | some sv =>
      match parseTimeValue sv with
      | none => none
      | some s =>
        match d.end_time? with
        | none => none
        | some ev =>
          match parseTimeValue ev with
          | none => none
          | some e =>
            some { title := title, reason := reason, start_time := s, end_time := e,
                   score := pyScoreCoerce d.score? }

/-- Result of `_patch_shorts_data`. -/
structure PatchedData where
  shorts : List PatchedShort
  total_shorts : ℕ
deriving DecidableEq

/-- `ShortsAgent._patch_shorts_data`, applied to the raw candidate
list (the function's preceding lines normalize the `"shorts"` field to
a list: a missing field or a non-list becomes `[]`, a single dict
becomes a one-element list; the argument here is that list). -/
def patchShortsData (items : List RawItem) : PatchedData :=
  let patched := items.filterMap patchShortItem
  { shorts := patched, total_shorts := patched.length }

/-- A raw candidate whose end time precedes its start time. -/
def reversedRawItem : RawItem :=
  .plain { title? := some (.str "A"), reason? := some (.str "B"),
           start_time? := some (.num 5), end_time? := some (.num 3),
           score? := some (.num 2) }

/-- A well-formed raw candidate used as the witness input. -/
def okRawItem : RawItem :=
  .plain { title? := some (.str "T"), reason? := some (.str "R"),
           start_time? := some (.str "1:10"), end_time? := some (.num 90),
           score? := some (.str "7.9") }

/-! ## Data model

`src/models/output.py` is not part of the source tree; its two record
classes are modelled from the spec. -/

/-- A transcript segment (spec §3 TranscriptSegment; only the fields
this core reads). -/
structure Segment where
  start : ℚ
  end_ : ℚ
  text : String
deriving DecidableEq

/-- A transcription result (spec §6 Input; only the fields this core
reads — the optional word lists are never consumed by the clip
pipeline). -/
structure Transcript where
  text : String := ""
  segments : List Segment
  language : String := ""
  language_probability : ℚ := 0
deriving DecidableEq

/-- Modelled from the spec: `ShortClient` of the missing
`src/models/output.py` — spec §3 ClipCandidate / §6 Output:
`{title, start_time, end_time, reason, score}`. -/
structure ShortClient where
  title : String
  start_time : ℚ
  end_time : ℚ
  reason : String
  score : ℤ
deriving DecidableEq

/-- Modelled from the spec: `ShortsOutput` of the missing
`src/models/output.py` — spec §6 Output (ClipSet):
`{shorts, total_shorts}`. -/
structure ShortsOutput where
  shorts : List ShortClient
  total_shorts : ℕ
deriving DecidableEq

/-! ## Boundary Refiner (`src/utils/clip_refiner.py`) -/

/-- The `_Window` working record (`end` is a Lean keyword, hence
`end_`). -/
structure Window where
  start : ℚ
  end_ : ℚ
  title : String
  reason : String
  score : ℤ
  anchor_mid : ℚ
  merged : Bool := false
deriving DecidableEq

/-- `clamp_time`. -/
def clampTime (ts te t : ℚ) : ℚ :=
  max ts (min te t)

/-- `snap_start`: the enclosing segment's start, else the nearest
earlier segment start, else the transcript start. -/
def snapStart (segs : List Segment) (ts : ℚ) (t : ℚ) : ℚ :=
  match segs.find? (fun sg => decide (sg.start ≤ t ∧ t ≤ sg.end_)) with
  | some sg => sg.start
  | none =>
    let earlier := (segs.map (·.start)).filter (fun s => decide (s ≤ t))
    if earlier = [] then ts else listMax earlier

/-- `snap_end`: the enclosing segment's end, else the nearest later
segment end, else the transcript end. -/
def snapEnd (segs : List Segment) (te : ℚ) (t : ℚ) : ℚ :=
  match segs.find? (fun sg => decide (sg.start ≤ t ∧ t ≤ sg.end_)) with
  | some sg => sg.end_
  | none =>
    let later := (segs.map (·.end_)).filter (fun e => decide (t ≤ e))
    if later = [] then te else listMin later

/-- `expand_and_snap`. -/
def expandAndSnap (segs : List Segment) (ts te pad : ℚ) (start stop : ℚ) : Window :=
  let s := clampTime ts te (start - pad)
  let e := clampTime ts te (stop + pad)
  let s := snapStart segs ts s
  let e := snapEnd segs te e
  { start := s, end_ := e, title := "", reason := "", score := 0,
    anchor_mid := (s + e) / 2 }

/-- First statement of `enforce_length`: re-center on the anchor
midpoint and re-snap when the duration is out of range. -/
def enforceStage1 (segs : List Segment) (ts te minLen maxLen : ℚ) (w : Window) : Window :=
  let dur := w.end_ - w.start
  if maxLen < dur then
    { w with start := snapStart segs ts (clampTime ts te (w.anchor_mid - maxLen / 2)),
             end_ := snapEnd segs te (clampTime ts te (w.anchor_mid + maxLen / 2)) }
  else if dur < minLen then
    { w with start := snapStart segs ts (clampTime ts te (w.anchor_mid - minLen / 2)),
             end_ := snapEnd segs te (clampTime ts te (w.anchor_mid + minLen / 2)) }
  else w

/-- Second statement of `enforce_length`: final guard against
overshooting `max_len` after snapping. -/
def enforceStage2 (ts te maxLen : ℚ) (w : Window) : Window :=
  if maxLen < w.end_ - w.start then
    { w with end_ := clampTime ts te (w.start + maxLen) }
  else w

/-- Third statement of `enforce_length`: force `min_len` around the
midpoint when the transcript is long enough. -/
def enforceStage3 (ts te minLen : ℚ) (w : Window) : Window :=
  if w.end_ - w.start < minLen ∧ minLen ≤ te - ts then
    { w with start := clampTime ts te (w.anchor_mid - minLen / 2),
             end_ := clampTime ts te (w.anchor_mid + minLen / 2) }
  else w

/-- `enforce_length` (its three statements in sequence). -/
def enforceLength (segs : List Segment) (ts te minLen maxLen : ℚ) (w : Window) : Window :=
  enforceStage3 ts te minLen
    (enforceStage2 ts te maxLen
      (enforceStage1 segs ts te minLen maxLen w))

/-- `is_similar` / `too_similar`: near-duplicate test — starts and
ends both within 0.5s, or overlap over the shorter duration at least
0.85. -/
def IsSimilar (a b : Window) : Prop :=
  (|a.start - b.start| < 1/2 ∧ |a.end_ - b.end_| < 1/2) ∨
  (17/20 ≤ max 0 (min a.end_ b.end_ - max a.start b.start) /
      max (1/10) (min (a.end_ - a.start) (b.end_ - b.start)))

instance (a b : Window) : Decidable (IsSimilar a b) := by
  unfold IsSimilar; infer_instance

/-- The first loop of `refine_shorts_output`: build windows from the
input clips, dropping those with `end <= start`. -/
def candidateWindows (segs : List Segment) (ts te pad : ℚ)
    (shorts : List ShortClient) : List Window :=
  shorts.foldl
    (fun acc sh =>
      if sh.end_time ≤ sh.start_time then acc
      else
        let w := expandAndSnap segs ts te pad sh.start_time sh.end_time
        acc ++ [{ w with title := sh.title, reason := sh.reason, score := sh.score,
                         anchor_mid := (sh.start_time + sh.end_time) / 2 }])
    []

/-- One jittered attempt of the backfill inner loop
(`for attempt in range(5)`). -/
def backfillAttempt (segs : List Segment) (ts te minLen maxLen pad : ℚ)
    (target : List Window) (base_mid : ℚ) (attempt : ℕ) : Option Window :=
  let jitter := ((attempt : ℚ) - 2) * (minLen * (7/20))
  let mid := clampTime ts te (base_mid + jitter)
  let w := expandAndSnap segs ts te pad (mid - minLen / 2) (mid + minLen / 2)
  let w := enforceLength segs ts te minLen maxLen w
  if w.end_ - w.start < minLen then none
  else if target.any (fun r => decide (IsSimilar w r)) then none
  else some { w with title := "Auto Clip",
                     reason := "Auto-generated to meet minimum clip count.",
                     score := 0 }

/-- One slot of the backfill loop (`for i in range(min_shorts)`),
including the un-jittered fallback after five failed attempts. -/
def backfillSlot (segs : List Segment) (ts te minLen maxLen pad : ℚ)
    (minShorts : ℕ) (target : List Window) (i : ℕ) : List Window :=
  if minShorts ≤ target.length then target
  else
    let span := max 1 (te - ts)
    let base_mid := ts + ((i : ℚ) + 1/2) * (span / (minShorts : ℚ))
    match (List.range 5).findSome?
        (backfillAttempt segs ts te minLen maxLen pad target base_mid) with
    | some w => target ++ [w]
    | none =>
      let w := expandAndSnap segs ts te pad (base_mid - minLen / 2) (base_mid + minLen / 2)
      let w := enforceLength segs ts te minLen maxLen w
      if minLen ≤ w.end_ - w.start ∧ ¬ target.any (fun r => decide (IsSimilar w r)) then
        target ++ [{ w with title := "Auto Clip",
                            reason := "Auto-generated to meet minimum clip count.",
                            score := 0 }]
      else target

/-- The backfill block of `refine_shorts_output` (it appears twice in
the source, once over `windows` and once over `refined`, with
identical code). -/
def backfillPass (segs : List Segment) (ts te minLen maxLen pad : ℚ)
    (minShorts : ℕ) (target : List Window) : List Window :=
  (List.range minShorts).foldl (backfillSlot segs ts te minLen maxLen pad minShorts) target

/-- The merge loop (`merged`): only active when `merge_gap > 0`. -/
def mergePass (merge_gap : ℚ) (l : List Window) : List Window :=
  match l with
  | [] => []
  | w0 :: rest =>
    rest.foldl
      (fun merged win =>
        match merged.getLast? with
        | none => merged ++ [win]
        | some cur =>
          if 0 < merge_gap ∧ win.start ≤ cur.end_ + merge_gap then
            merged.dropLast ++
              [{ cur with end_ := max cur.end_ win.end_,
                          anchor_mid := (cur.anchor_mid + win.anchor_mid) / 2,
                          merged := true }]
          else merged ++ [win])
      [w0]

/-- One iteration of the `refined` loop: length-enforce the window,
keep it only if it is at least `min_len` long and not a near-duplicate
of an already accepted window. -/
def dedupStep (segs : List Segment) (ts te minLen maxLen : ℚ)
    (refined : List Window) (win : Window) : List Window :=
  let w := enforceLength segs ts te minLen maxLen win
  if minLen ≤ w.end_ - w.start then
    if refined.any (fun r => decide (IsSimilar w r)) then refined
    else refined ++ [w]
  else refined

/-- The `refined` loop of `refine_shorts_output`. -/
def dedupEnforce (segs : List Segment) (ts te minLen maxLen : ℚ)
    (l : List Window) : List Window :=
  l.foldl (dedupStep segs ts te minLen maxLen) []

/-- Everything `refine_shorts_output` does to a nonempty window list:
sort, merge, length-enforce + dedup, second backfill, cap to
`max_shorts`.  Its result (before the 2-decimal rounding of
`ShortClient` conversion) is the refiner's output window list. -/
def postProcess (segs : List Segment) (ts te minLen maxLen pad mg : ℚ)
    (maxShorts? minShorts? : Option ℕ) (windows : List Window) : List Window :=
  let sorted := stableSortBy (fun a b => decide (a.start ≤ b.start)) windows
  let merged := mergePass mg sorted
  let refined := dedupEnforce segs ts te minLen maxLen merged
  let refined :=
    match minShorts? with
    | some m => if refined.length < m then backfillPass segs ts te minLen maxLen pad m refined else refined
    | none => refined
  match maxShorts? with
  | some m => refined.take m
  | none => refined

/-- Conversion of a refined window back to a clip record
(`round(_, 2)` on both bounds). -/
def toShortClient (w : Window) : ShortClient :=
  { title := w.title, start_time := pyRound2 w.start, end_time := pyRound2 w.end_,
    reason := w.reason, score := w.score }

/-- Python `not min_shorts` (`None` or `0`). -/
def minShortsFalsy : Option ℕ → Bool
  | none => true
  | some 0 => true
  | some (_ + 1) => false

/-- `segments = sorted(segments, key=start)` at the top of
`refine_shorts_output`. -/
def sortedSegs (tr : Transcript) : List Segment :=
  stableSortBy (fun a b => decide (a.start ≤ b.start)) tr.segments

/-- `transcript_start = min(seg start)`. -/
def transcriptStart (tr : Transcript) : ℚ :=
  listMin ((sortedSegs tr).map (·.start))

/-- `transcript_end = max(seg end)`. -/
def transcriptEnd (tr : Transcript) : ℚ :=
  listMax ((sortedSegs tr).map (·.end_))

/-- The window list built from the input clips. -/
def initialWindows (tr : Transcript) (pad : ℚ) (shorts : List ShortClient) : List Window :=
  candidateWindows (sortedSegs tr) (transcriptStart tr) (transcriptEnd tr) pad shorts

/-- The window list after the first backfill block
(`if min_shorts is not None and len(windows) < min_shorts`). -/
def windowsAfterBackfill (tr : Transcript) (minLen maxLen pad : ℚ)
    (minShorts? : Option ℕ) (shorts : List ShortClient) : List Window :=
  let ws := initialWindows tr pad shorts
  match minShorts? with
  | some m =>
    if ws.length < m then
      backfillPass (sortedSegs tr) (transcriptStart tr) (transcriptEnd tr) minLen maxLen pad m ws
    else ws
  | none => ws

/-- `refine_shorts_output` (`src/utils/clip_refiner.py`). -/
def refineShortsOutput (o : ShortsOutput) (tr : Transcript)
    (minLen maxLen pad mg : ℚ) (maxShorts? minShorts? : Option ℕ) : ShortsOutput :=
  if tr.segments = [] then o
  else if initialWindows tr pad o.shorts = [] ∧ minShortsFalsy minShorts? = true then o
  else if windowsAfterBackfill tr minLen maxLen pad minShorts? o.shorts = [] then o
  else
    let final := postProcess (sortedSegs tr) (transcriptStart tr) (transcriptEnd tr)
      minLen maxLen pad mg maxShorts? minShorts?
      (windowsAfterBackfill tr minLen maxLen pad minShorts? o.shorts)
    { shorts := final.map toShortClient, total_shorts := (final.map toShortClient).length }

/-- The spec's near-duplicate test (§4.5 step 5 / glossary) stated on
output clip records: starts and ends both within 0.5s, or overlap over
the shorter duration at least 0.85. -/
def ClientNearDuplicate (a b : ShortClient) : Prop :=
  (|a.start_time - b.start_time| < 1/2 ∧ |a.end_time - b.end_time| < 1/2) ∨
  (17/20 ≤ max 0 (min a.end_time b.end_time - max a.start_time b.start_time) /
      max (1/10) (min (a.end_time - a.start_time) (b.end_time - b.start_time)))

instance (a b : ShortClient) : Decidable (ClientNearDuplicate a b) := by
  unfold ClientNearDuplicate; infer_instance

/-- A 600-second transcript of ten evenly spaced 60-second segments. -/
def backfillTranscript : Transcript :=
  { segments := (List.range 10).map (fun i => ⟨60 * i, 60 * i + 60, "segment text"⟩) }

/-- Transcript for the C3 counterexample: segment boundaries at
0, 3, 3.004, 20, 20.004 and 23.004 seconds. -/
def roundingTranscript : Transcript :=
  { segments := [⟨0, 3, "a"⟩, ⟨3004/1000, 20, "b"⟩, ⟨20004/1000, 23004/1000, "c"⟩] }

/-- Input clips for the C3 counterexample. -/
def roundingInput : ShortsOutput :=
  { shorts := [⟨"A", 0, 20, "r1", 5⟩, ⟨"B", 3004/1000, 23004/1000, "r2", 4⟩],
    total_shorts := 2 }

/-- The refiner output invariant: every window is between `min_len`
and `max_len` long, and no two windows are near-duplicates. -/
def WindowsInvariant (minLen maxLen : ℚ) (l : List Window) : Prop :=
  (∀ w ∈ l, minLen ≤ w.end_ - w.start ∧ w.end_ - w.start ≤ maxLen) ∧
  l.Pairwise (fun a b => ¬ IsSimilar a b)

/-! ## Ranking & Spatial Selector (`ShortsAgent._rank_and_spread`) -/

/-- Midpoint of a clip. -/
def clipMid (c : ShortClient) : ℚ :=
  (c.start_time + c.end_time) / 2

/-- `too_similar` of `_rank_and_spread` (the same near-duplicate test
as the refiner's `is_similar`, on clip records). -/
def TooSimilar (a b : ShortClient) : Prop :=
  (|a.start_time - b.start_time| < 1/2 ∧ |a.end_time - b.end_time| < 1/2) ∨
  (17/20 ≤ max 0 (min a.end_time b.end_time - max a.start_time b.start_time) /
      max (1/10) (min (a.end_time - a.start_time) (b.end_time - b.start_time)))

instance (a b : ShortClient) : Decidable (TooSimilar a b) := by
  unfold TooSimilar; infer_instance

/-- `far_enough`: the candidate's midpoint is at least `min_gap_seconds`
away from every selected midpoint. -/
def farEnough (gap : ℚ) (selected : List ShortClient) (c : ShortClient) : Bool :=
  selected.all (fun s => !decide (|clipMid c - clipMid s| < gap))

/-- An insertion-ordered association list modelling the Python dict
`best_per_bucket`: updating an existing key keeps its position, a new
key is appended. -/
def dictInsert (d : List (ℤ × ShortClient)) (k : ℤ) (v : ShortClient) :
    List (ℤ × ShortClient) :=
  if d.any (fun p => decide (p.1 = k)) then
    d.map (fun p => if p.1 = k then (k, v) else p)
  else d ++ [(k, v)]

/-- Dict lookup (`best_per_bucket.get(bucket)`). -/
def dictLookup (d : List (ℤ × ShortClient)) (k : ℤ) : Option ShortClient :=
  match d.find? (fun p => decide (p.1 = k)) with
  | some p => some p.2
  | none => none

/-- The `best_per_bucket` loop: keep the highest-scoring candidate per
time bucket. -/
def bestPerBucket (minT bucketSize : ℚ) (target : ℕ)
    (candidates : List ShortClient) : List (ℤ × ShortClient) :=
  candidates.foldl
    (fun d c =>
      let mid := clipMid c
      let b := intTrunc ((mid - minT) / bucketSize)
      let b := max 0 (min ((target : ℤ) - 1) b)
      match dictLookup d b with
      | none => dictInsert d b c
      | some prev => if prev.score < c.score then dictInsert d b c else d)
    []

/-- The first fill loop: greedily add remaining candidates whose
midpoint is `min_gap_seconds` away from every selected midpoint, until
`target_shorts` is reached. -/
def fillPass (gap : ℚ) (target : ℕ) (sel : List ShortClient) :
    List ShortClient → List ShortClient
  | [] => sel
  | c :: rest =>
    if target ≤ sel.length then sel
    else if farEnough gap sel c then fillPass gap target (sel ++ [c]) rest
    else fillPass gap target sel rest

/-- The second, relaxed pass: allow closer midpoints but reject
near-duplicate windows. -/
def secondPass (target : ℕ) (sel : List ShortClient) :
    List ShortClient → List ShortClient
  | [] => sel
  | c :: rest =>
    if target ≤ sel.length then sel
    else if sel.any (fun s => decide (TooSimilar c s)) then secondPass target sel rest
    else secondPass target (sel ++ [c]) rest

/-- `ShortsAgent._rank_and_spread`. -/
def rankAndSpread (candidates : List ShortClient) (tr : Transcript)
    (target : ℕ) (gap : ℚ) : List ShortClient :=
  if candidates = [] then []
  else
    let minT := if tr.segments = [] then listMin (candidates.map (·.start_time))
                else listMin (tr.segments.map (·.start))
    let maxT := if tr.segments = [] then listMax (candidates.map (·.end_time))
                else listMax (tr.segments.map (·.end_))
    let span := max 1 (maxT - minT)
    let bucketSize := span / ((max 1 target : ℕ) : ℚ)
    let best := bestPerBucket minT bucketSize target candidates
    let selected := stableSortBy (fun a b => decide (a.start_time ≤ b.start_time)) (best.map (·.2))
    let remaining := candidates.filter (fun c => !selected.contains c)
    let remaining := stableSortBy (fun a b => decide (b.score ≤ a.score)) remaining
    let selected := fillPass gap target selected remaining
    let selected := if selected.length < target then secondPass target selected remaining
                    else selected
    (stableSortBy (fun a b => decide (a.start_time ≤ b.start_time)) selected).take target

/-- Transcript for the C4 counterexample (span 0–200). -/
def rankTranscript : Transcript :=
  { segments := [⟨0, 100, "x"⟩, ⟨100, 200, "y"⟩] }

/-- C4 counterexample candidate: bucket-0 winner, midpoint 95. -/
def rankC1 : ShortClient := ⟨"c1", 90, 100, "r", 9⟩

/-- C4 counterexample candidate: bucket-1 winner, midpoint 105. -/
def rankC2 : ShortClient := ⟨"c2", 100, 110, "r", 8⟩

/-- C4 counterexample candidate: lower-scoring alternative, midpoint
150. -/
def rankC3 : ShortClient := ⟨"c3", 140, 160, "r", 1⟩

/-! ## Quality Enricher (`ShortsAgent._enrich_shorts` and helpers) -/

/-- Replace each maximal run of whitespace by a single space
(`re.sub(r"\s+", " ", _)`); the boolean records whether the previous
character was whitespace. -/
def collapseWsAux : Bool → List Char → List Char
  | _, [] => []
  | prevWs, c :: t =>
    if pyIsSpace c then
      if prevWs then collapseWsAux true t else ' ' :: collapseWsAux true t
    else c :: collapseWsAux false t

/-- Split a whitespace-collapsed text after each `.`, `!` or `?`
followed by a space (`re.split(r'(?<=[.!?])\s+', _)`; on collapsed
text every `\s+` is a single space). -/
def splitSentencesAux (acc : List Char) : List Char → List (List Char)
  | [] => [acc]
  | c :: t =>
    if c = ' ' ∧ (acc.getLast? = some '.' ∨ acc.getLast? = some '!' ∨ acc.getLast? = some '?') then
      acc :: splitSentencesAux [] t
    else splitSentencesAux (acc ++ [c]) t

/-- `extract_sentences` of `_enrich_shorts`. -/
def extract_sentences (text : String) : List String :=
  let cleaned := pyStrip (String.mk (collapseWsAux false (pyReplace text "\n" " ").toList))
  if cleaned = "" then []
  else
    let sentences := (splitSentencesAux [] cleaned.toList).map String.mk
    (sentences.map (fun s => stripChars s [' ', '\t', '\n', '.', '?', '!'])).filter (· ≠ "")

/-- First index at which `pat` occurs (Python `str.find`, as an
`Option`). -/
def findSubAux (pat : List Char) : List Char → ℕ → Option ℕ
  | [], i => if pat = [] then some i else none
  | c :: t, i => if pat.isPrefixOf (c :: t) then some i else findSubAux pat t (i + 1)

/-- The delimiter-cutting loop of `make_title_from_text`: cut the
sentence at the first clause delimiter found (searching on the
lower-cased sentence, re-computed after each cut). -/
def cutDelims (sentence : String) : String :=
  [" because ", " that ", " which ", " so ", " but ", " and ", " if ", " when ", " after "].foldl
    (fun sent d =>
      match findSubAux d.toList (pyLower sent).toList 0 with
      | some idx => pyTake sent idx
      | none => sent)
    sentence

/-- One alternative of the leading-article regex: the word matches
case-insensitively at the start and is followed by whitespace. -/
def leadWordMatches (w : String) (s : String) : Bool :=
  pyStartsWith (pyLower s) w &&
    (match (pyLower s).toList.drop w.toList.length with
     | c :: _ => pyIsSpace c
     | [] => false)

/-- `re.sub(r'^(the|a|an|this|that|these|those|it|they|we|i|he|she)\s+', "", _,
flags=IGNORECASE)`: regex alternation tries the alternatives in order
and the whole match must extend over trailing whitespace. -/
def stripLeadArticle (s : String) : String :=
  match ["the", "a", "an", "this", "that", "these", "those", "it", "they", "we", "i", "he", "she"].find?
      (fun w => leadWordMatches w s) with
  | some w => String.mk ((s.toList.drop w.toList.length).dropWhile pyIsSpace)
  | none => s

/-- Python `s.rsplit(" ", 1)[0]`: everything before the last space (or
the whole string when it has no space). -/
def rsplitHead (s : String) : String :=
  let l := s.toList
  if l.contains ' ' then String.mk (((l.reverse.dropWhile (· ≠ ' ')).drop 1).reverse) else s

/-- Number of whitespace-separated words (`len(s.split())`). -/
def wordCount (s : String) : ℕ :=
  (pyWords s).length

/-- ASCII upper-casing of one character, written as a table so the
kernel can evaluate it. -/
def upperChar (c : Char) : Char :=
  match c with
  | 'a' => 'A' | 'b' => 'B' | 'c' => 'C' | 'd' => 'D' | 'e' => 'E'
  | 'f' => 'F' | 'g' => 'G' | 'h' => 'H' | 'i' => 'I' | 'j' => 'J'
  | 'k' => 'K' | 'l' => 'L' | 'm' => 'M' | 'n' => 'N' | 'o' => 'O'
  | 'p' => 'P' | 'q' => 'Q' | 'r' => 'R' | 's' => 'S' | 't' => 'T'
  | 'u' => 'U' | 'v' => 'V' | 'w' => 'W' | 'x' => 'X' | 'y' => 'Y'
  | 'z' => 'Z' | c => c

/-- `sentence[0].upper() + sentence[1:]` (total: `""` for the empty
string, which the source never reaches there). -/
def upperFirst (s : String) : String :=
  match s.toList with
  | [] => ""
  | c :: t => String.mk (upperChar c :: t)

/-- `make_title_from_text` of `_enrich_shorts`. -/
def make_title_from_text (text : String) : String :=
  match extract_sentences text with
  | [] => ""
  | s0 :: rest =>
    let sentence := cutDelims s0
    let sentence := stripLeadArticle sentence
    let sentence := stripChars sentence [' ', ',', ';', ':', '.', '!', '?']
    let sentence := if 80 < sentence.toList.length then rsplitHead (pyTake sentence 80) else sentence
    if sentence = "" then ""
    else
      let sentence :=
        if wordCount sentence < 4 ∧ rest ≠ [] then
          match rest with
          | extra0 :: _ =>
            let extra := stripChars extra0 [' ', ',', ';', ':', '.', '!', '?']
            if extra ≠ "" ∧ 3 ≤ wordCount extra then sentence ++ ": " ++ extra else sentence
          | [] => sentence
        else sentence
      let sentence := pyStrip sentence
      let sentence := if 90 < sentence.toList.length then rsplitHead (pyTake sentence 90) else sentence
      upperFirst sentence

/-- The final two lines of `make_reason_from_text`: append a period
unless the reason already ends with one. -/
def ensureDot (r : String) : String :=
  if pyEndsWith r "." then r else r ++ "."

/-- `make_reason_from_text` of `_enrich_shorts`. -/
def make_reason_from_text (text : String) : String :=
  match extract_sentences text with
  | [] => ""
  | s0 :: rest =>
    let reason := pyStrip s0
    let reason :=
      if reason.toList.length < 60 ∧ rest ≠ [] then
        match rest with
        | second0 :: _ =>
          let second := pyStrip second0
          if second ≠ "" then reason ++ ". " ++ second else reason
        | [] => reason
      else reason
    let reason := pyStrip reason
    let reason :=
      if reason.toList.length < 90 ∧ 2 ≤ rest.length then
        match rest with
        | _ :: third0 :: _ =>
          let third := pyStrip third0
          if third ≠ "" then reason ++ ". " ++ third else reason
        | _ => reason
      else reason
    let reason := if 180 < reason.toList.length then rsplitHead (pyTake reason 180) else reason
    ensureDot reason

/-- `is_generic_reason` of `_enrich_shorts`. -/
def is_generic_reason (reason : String) : Bool :=
  let r := pyLower (pyStrip reason)
  if r = "" ∨ r = "n/a" then true
  else if (pyWords r).length < 5 then true
  else if pyStartsWith r "auto-generated" then true
  else false

/-- `is_generic_title` of `_enrich_shorts`. -/
def is_generic_title (title : String) : Bool :=
  let t := pyLower (pyStrip title)
  let bad := ["compelling title", "end time", "full transcript", "key supporting clip",
    "the core message", "longer clips from different sections", "the aerial",
    "the end of the first day", "a character from a charles dickens novel",
    "untitled segment", "untitled", "auto clip"]
  if bad.contains t then true
  else if ["like ", "because ", "so ", "then ", "yeah "].any (fun p => pyStartsWith t p) then true
  else if (pyWords t).length ≤ 2 ∧ ["clip", "segment", "highlight"].contains t then true
  else false

/-- The non-Latin code-point ranges tested by `is_non_english_text`
(Arabic, Arabic Supplement/Extended, Devanagari). -/
def isScriptChar (c : Char) : Bool :=
  (0x0600 ≤ c.toNat ∧ c.toNat ≤ 0x06FF) ∨ (0x0750 ≤ c.toNat ∧ c.toNat ≤ 0x077F) ∨
  (0x08A0 ≤ c.toNat ∧ c.toNat ≤ 0x08FF) ∨ (0x0900 ≤ c.toNat ∧ c.toNat ≤ 0x097F)

/-- Python `str.isalpha`, over the alphabets the heuristic
distinguishes: ASCII letters and the non-Latin ranges the source tests
for. -/
def pyIsAlpha (c : Char) : Bool :=
  c.isAlpha ∨ isScriptChar c

/-- `is_non_english_text` of `_enrich_shorts`. -/
def is_non_english_text (text : String) : Bool :=
  if text = "" then false
  else if text.toList.any isScriptChar then true
  else
    let letters := (text.toList.filter pyIsAlpha).length
    let ascii_letters := (text.toList.filter (fun c => pyIsAlpha c ∧ c.toNat < 128)).length
    if 0 < letters ∧ ((ascii_letters : ℚ) / (letters : ℚ)) < 3/5 then true
    else false

/-- `" ".join(parts)`. -/
def joinSpace : List String → String
  | [] => ""
  | [s] => s
  | s :: rest => s ++ " " ++ joinSpace rest

/-- `window_text` of `_enrich_shorts`: texts of all segments
overlapping the window, joined, stripped and truncated to 1400
characters. -/
def window_text (segments : List Segment) (start_time end_time : ℚ) : String :=
  let parts := segments.foldl
    (fun parts seg =>
      if seg.end_ < start_time ∨ end_time < seg.start then parts
      else
        let t := pyStrip seg.text
        if t ≠ "" then parts ++ [t] else parts)
    []
  pyTake (pyStrip (joinSpace parts)) 1400

/-- `nearest_segment_text` of `_enrich_shorts`: the text of the
segment whose midpoint is nearest (first wins on ties). -/
def nearest_segment_text (segments : List Segment) (time_sec : ℚ) : String :=
  let best := segments.foldl
    (fun acc seg =>
      let dist := |(seg.start + seg.end_) / 2 - time_sec|
      match acc with
      | none => some (seg, dist)
      | some (_, bd) => if dist < bd then some (seg, dist) else acc)
    none
  match best with
  | none => ""
  | some (b, _) => pyStrip b.text

/-- `window_text(...) or nearest_segment_text(...)` as used for each
clip. -/
def clip_text (segments : List Segment) (s e : ℚ) : String :=
  let t := window_text segments s e
  if t ≠ "" then t else nearest_segment_text segments s

/-- One index-addressed `{index, title, reason}` patch parsed from the
enrichment reply of the generation capability (malformed entries are
skipped by the source and so never reach this list). -/
structure RepairPatch where
  index : ℤ
  title : String
  reason : String
deriving DecidableEq

/-- Modify the element at an index (in-place mutation of
`output.shorts[idx]`). -/
def modifyIdx : List α → ℕ → (α → α) → List α
  | [], _, _ => []
  | a :: t, 0, f => f a :: t
  | a :: t, n + 1, f => a :: modifyIdx t n f

/-- Application of one patch in `_apply_llm_title_reason_repairs`:
skip out-of-range indices, set only the nonempty stripped fields. -/
def applyPatch (shorts : List ShortClient) (p : RepairPatch) : List ShortClient :=
  if p.index < 0 ∨ (shorts.length : ℤ) ≤ p.index then shorts
  else
    modifyIdx shorts p.index.toNat
      (fun c =>
        let t := pyStrip p.title
        let r := pyStrip p.reason
        let c := if t ≠ "" then { c with title := t } else c
        if r ≠ "" then { c with reason := r } else c)

/-- The patch-application loop of `_apply_llm_title_reason_repairs`
(any parsing failure there leaves the output untouched, i.e. an empty
patch list). -/
def applyLlmRepairs (shorts : List ShortClient) (patches : List RepairPatch) : List ShortClient :=
  patches.foldl applyPatch shorts

/-- The `title_counts` dict: occurrences of each nonempty
stripped-lower-cased title. -/
def titleCountsOf (shorts : List ShortClient) (t : String) : ℕ :=
  if t = "" then 0 else shorts.countP (fun s => pyLower (pyStrip s.title) = t)

/-- The body of the final enrichment loop for one clip, with its
transcript excerpt already computed. -/
def enrichClipStep (titleCounts : String → ℕ) (idx : ℕ) (short : ShortClient)
    (text : String) : ShortClient :=
  let title_key := pyLower (pyStrip short.title)
  let repeated := title_key ≠ "" ∧ 1 < titleCounts title_key
  let non_english := is_non_english_text short.title ∨ is_non_english_text short.reason
  let title' :=
    if short.title = "" ∨ is_generic_title short.title = true ∨ repeated ∨ non_english then
      let t := if text ≠ "" then make_title_from_text text else short.title
      if t = "" then "Clip " ++ toString (idx + 1) else t
    else short.title
  let reason' :=
    if short.reason = "" ∨ is_generic_reason short.reason = true ∨ non_english then
      let r := if text ≠ "" then make_reason_from_text text else short.reason
      if r = "" then "Highlights a clear, self-contained point from the segment." else r
    else short.reason
  { short with title := title', reason := reason' }

/-- `if repair_targets:` — the enrichment request is only issued when
some clip has a nonempty excerpt. -/
def repairTargetsExist (segments : List Segment) (shorts : List ShortClient) : Bool :=
  shorts.any (fun s => clip_text segments s.start_time s.end_time ≠ "")

/-- `ShortsAgent._enrich_shorts` with the parsed enrichment patches as
an abstract parameter (the generation capability is opaque; a failed
or unparseable reply is the empty patch list). -/
def pyEnrich (output : ShortsOutput) (tr : Transcript) (patches : List RepairPatch) :
    ShortsOutput :=
  if tr.segments = [] then output
  else
    let counts := titleCountsOf output.shorts
    let shorts1 :=
      if repairTargetsExist tr.segments output.shorts then applyLlmRepairs output.shorts patches
      else output.shorts
    let enriched := shorts1.enum.map
      (fun p => enrichClipStep counts p.1 p.2 (clip_text tr.segments p.2.start_time p.2.end_time))
    { shorts := enriched, total_shorts := enriched.length }

/-- Transcript whose only segment has empty text, so no excerpt
exists for any clip. -/
def noExcerptTranscript : Transcript :=
  { segments := [⟨0, 1, ""⟩] }

/-- A clip flagged on both fields: generic title, generic nonempty
reason. -/
def flaggedClip : ShortClient :=
  ⟨"Untitled Segment", 0, 1, "n/a", 0⟩

/-- The fields of a clip that the Quality Enricher may never change. -/
def clipFrame (c : ShortClient) : ℚ × ℚ × ℤ :=
  (c.start_time, c.end_time, c.score)

/-! ## Repair Escalation (C6: `select_shorts` lines 85–88,
`_repair_and_parse`) -/

/-- The environment of the extraction step: the outcome of
`_parse_shorts_output` on any content (`none` models a raised
exception, i.e. the extraction cascade failed outright), the pure
text repair `_clean_json_content`, and the repair LLM's reply
(`none` models the `invoke` call itself raising). -/
structure ExtractionEnv where
  parseOutcome : String → Option ShortsOutput
  cleanContent : String → String
  repairReply : Option String

/-- `ShortsAgent._repair_and_parse`: strip, clean and re-parse the
repair reply; any failure anywhere yields the empty ClipSet (the
surrounding `try/except` returns a value — nothing is raised). -/
def repairAndParse (env : ExtractionEnv) : ShortsOutput :=
  match env.repairReply with
  | none => ⟨[], 0⟩
  | some reply =>
    match env.parseOutcome (env.cleanContent (pyStrip reply)) with
    | none => ⟨[], 0⟩
    | some o => o

/-- The extraction step of `select_shorts`
(`try: output = self._parse_shorts_output(content) except:
output = self._repair_and_parse(content)`); the boolean records
whether the repair escalation ran. -/
def extractWithRepair (env : ExtractionEnv) (content : String) : ShortsOutput × Bool :=
  match env.parseOutcome content with
  | some o => (o, false)
  | none => (repairAndParse env, true)

/-- A concrete environment in which both the initial parse and the
repair parse fail. -/
def failingEnv : ExtractionEnv :=
  { parseOutcome := fun _ => none, cleanContent := fun s => s, repairReply := some "x" }

/-! ## Chunked mode (C8: `select_shorts_chunked`,
`_split_transcript_by_time`) -/

/-- `ShortsAgent._split_transcript_by_time` (the per-chunk word lists,
which the clip pipeline never reads, are not modelled). -/
def splitTranscriptByTime (tr : Transcript) (chunk_minutes : ℚ) : List Transcript :=
  if tr.segments = [] then [tr]
  else
    let chunk_seconds := chunk_minutes * 60
    let min_time := listMin (tr.segments.map (·.start))
    let max_time := listMax (tr.segments.map (·.end_))
    let num_chunks : ℤ := max 1 ⌈(max_time - min_time) / chunk_seconds⌉
    if num_chunks ≤ 1 then [tr]
    else
      let chunks := (List.range num_chunks.toNat).foldl
        (fun chunks i =>
          let ws := min_time + (i : ℚ) * chunk_seconds
          let we := ws + chunk_seconds
          let chunk_segments := tr.segments.filter (fun s => decide (ws ≤ s.start ∧ s.start < we))
          if chunk_segments = [] then chunks
          else
            chunks ++ [{ text := joinSpace (chunk_segments.map (·.text)),
                         segments := chunk_segments,
                         language := tr.language,
                         language_probability := tr.language_probability }])
        []
      if chunks = [] then [tr] else chunks

/-- The per-chunk accumulation loop of `select_shorts_chunked`: a
chunk whose `select_shorts` call raises (`sel c = none`) is skipped
(`except ... continue`); a successful chunk contributes its clips. -/
def collectChunkShorts (sel : Transcript → Option ShortsOutput) (chunks : List Transcript) :
    List ShortClient :=
  chunks.foldl
    (fun acc c =>
      match sel c with
      | none => acc
      | some o => acc ++ o.shorts)
    []

/-- The deduplication loop of `select_shorts_chunked`: drop a clip
that overlaps more than 50% (relative to its own duration) with the
previously kept clip. -/
def dedupeChunkShorts (sorted : List ShortClient) : List ShortClient :=
  match sorted with
  | [] => []
  | first :: rest =>
    rest.foldl
      (fun deduped short =>
        match deduped.getLast? with
        | none => deduped ++ [short]
        | some prev =>
          let overlap_start := max prev.start_time short.start_time
          let overlap_end := min prev.end_time short.end_time
          let overlap := max 0 (overlap_end - overlap_start)
          let short_duration := max (1/10) (short.end_time - short.start_time)
          if overlap / short_duration < 1/2 then deduped ++ [short] else deduped)
      [first]

/-- `ShortsAgent.select_shorts_chunked`, with one full
`select_shorts` invocation abstracted as `sel` (`none` = that call
raised; its per-chunk target and the enrichment patches are inside /
alongside the opaque generation capability).  The single-chunk path
delegates to `sel` on the whole transcript and so may fail; the
multi-chunk path is total. -/
def selectShortsChunked (sel : Transcript → Option ShortsOutput) (tr : Transcript)
    (chunk_minutes : ℚ) (target : ℕ) (gap : ℚ) (patches : List RepairPatch) :
    Option ShortsOutput :=
  let chunks := splitTranscriptByTime tr chunk_minutes
  if chunks.length ≤ 1 then sel tr
  else
    let all_shorts := collectChunkShorts sel chunks
    if all_shorts = [] then
      some (pyEnrich (refineShortsOutput ⟨[], 0⟩ tr 15 60 (3/2) 0 (some (max target 5)) (some 5))
        tr patches)
    else
      let sorted := stableSortBy (fun a b => decide (a.start_time ≤ b.start_time)) all_shorts
      let deduped := dedupeChunkShorts sorted
      let final := rankAndSpread deduped tr target gap
      some (pyEnrich (refineShortsOutput ⟨final, final.length⟩ tr 15 60 (3/2) 0
        (some (max target 5)) (some 5)) tr patches)

/-- A transcript splitting into exactly two chunks at
`chunk_minutes = 1`. -/
def chunkTranscript : Transcript :=
  { segments := [⟨0, 30, "a"⟩, ⟨70, 100, "b"⟩] }

/-! ## Theorems -/

theorem foldl_min_le_init (t : List ℚ) (a : ℚ) : t.foldl min a ≤ a := by
  induction t generalizing a with
  | nil => exact le_refl a
  | cons b t ih => exact le_trans (ih (min a b)) (min_le_left a b)

theorem foldl_min_le_mem (t : List ℚ) (a : ℚ) (x : ℚ) (hx : x ∈ t) :
    t.foldl min a ≤ x := by
  induction t generalizing a with
  | nil => cases hx
  | cons b t ih =>
    rcases List.mem_cons.mp hx with h | h
    · subst h
      exact le_trans (foldl_min_le_init t (min a x)) (min_le_right a x)
    · exact ih (min a b) h

theorem listMin_le (l : List ℚ) (x : ℚ) (hx : x ∈ l) : listMin l ≤ x := by
  match l with
  | [] => cases hx
  | a :: t =>
    rcases List.mem_cons.mp hx with h | h
    · subst h; exact foldl_min_le_init t x
    · exact foldl_min_le_mem t a x h

theorem init_le_foldl_max (t : List ℚ) (a : ℚ) : a ≤ t.foldl max a := by
  induction t generalizing a with
  | nil => exact le_refl a
  | cons b t ih => exact le_trans (le_max_left a b) (ih (max a b))

theorem mem_le_foldl_max (t : List ℚ) (a : ℚ) (x : ℚ) (hx : x ∈ t) :
    x ≤ t.foldl max a := by
  induction t generalizing a with
  | nil => cases hx
  | cons b t ih =>
    rcases List.mem_cons.mp hx with h | h
    · subst h
      exact le_trans (le_max_right a x) (init_le_foldl_max t (max a x))
    · exact ih (max a b) h

theorem le_listMax (l : List ℚ) (x : ℚ) (hx : x ∈ l) : x ≤ listMax l := by
  match l with
  | [] => cases hx
  | a :: t =>
    rcases List.mem_cons.mp hx with h | h
    · subst h; exact init_le_foldl_max t x
    · exact mem_le_foldl_max t a x h

theorem foldl_max_mem (t : List ℚ) (a : ℚ) : t.foldl max a ∈ a :: t := by
  induction t generalizing a with
  | nil => exact List.mem_singleton.mpr rfl
  | cons b t ih =>
    have h := ih (max a b)
    have hsub : (max a b) :: t ⊆ a :: b :: t := by
      intro x hx
      rcases List.mem_cons.mp hx with rfl | hx
      · rcases max_choice a b with hc | hc <;> rw [hc]
        · exact List.mem_cons_self _ _
        · exact List.mem_cons.mpr (Or.inr (List.mem_cons_self _ _))
      · exact List.mem_cons.mpr (Or.inr (List.mem_cons.mpr (Or.inr hx)))
    rw [List.foldl_cons]
    exact hsub h

theorem listMax_mem (l : List ℚ) (h : l ≠ []) : listMax l ∈ l := by
  match l with
  | [] => exact absurd rfl h
  | a :: t => exact foldl_max_mem t a

theorem foldl_min_mem (t : List ℚ) (a : ℚ) : t.foldl min a ∈ a :: t := by
  induction t generalizing a with
  | nil => exact List.mem_singleton.mpr rfl
  | cons b t ih =>
    have h := ih (min a b)
    have hsub : (min a b) :: t ⊆ a :: b :: t := by
      intro x hx
      rcases List.mem_cons.mp hx with rfl | hx
      · rcases min_choice a b with hc | hc <;> rw [hc]
        · exact List.mem_cons_self _ _
        · exact List.mem_cons.mpr (Or.inr (List.mem_cons_self _ _))
      · exact List.mem_cons.mpr (Or.inr (List.mem_cons.mpr (Or.inr hx)))
    rw [List.foldl_cons]
    exact hsub h

theorem listMin_mem (l : List ℚ) (h : l ≠ []) : listMin l ∈ l := by
  match l with
  | [] => exact absurd rfl h
  | a :: t => exact foldl_min_mem t a

theorem mem_insertLe (le : α → α → Bool) (a x : α) (l : List α) :
    x ∈ insertLe le a l ↔ x = a ∨ x ∈ l := by
  induction l with
  | nil => simp [insertLe]
  | cons b t ih =>
    by_cases h : le b a
    · simp only [insertLe, if_pos h, List.mem_cons, ih]
      tauto
    · simp only [insertLe, if_neg h, List.mem_cons]

theorem sorted_insertLe (le : α → α → Bool)
    (htot : ∀ a b, le a b ∨ le b a)
    (htrans : ∀ a b c, le a b = true → le b c = true → le a c = true)
    (a : α) (l : List α) (hl : l.Pairwise (fun x y => le x y = true)) :
    (insertLe le a l).Pairwise (fun x y => le x y = true) := by
  induction l with
  | nil => simp [insertLe]
  | cons b t ih =>
    rcases List.pairwise_cons.mp hl with ⟨hb, ht⟩
    by_cases h : le b a
    · simp only [insertLe, if_pos h]
      refine List.pairwise_cons.mpr ⟨?_, ih ht⟩
      intro y hy
      rcases (mem_insertLe le a y t).mp hy with rfl | hy
      · exact h
      · exact hb y hy
    · simp only [insertLe, if_neg h]
      refine List.pairwise_cons.mpr ⟨?_, hl⟩
      intro y hy
      rcases List.mem_cons.mp hy with rfl | hy
      · rcases htot a y with h' | h'
        · exact h'
        · exact absurd h' (by simpa using h)
      · rcases htot a b with h' | h'
        · exact htrans a b y h' (hb y hy)
        · exact absurd h' (by simpa using h)

theorem mem_stableSortBy (le : α → α → Bool) (l : List α) (x : α) :
    x ∈ stableSortBy le l ↔ x ∈ l := by
  suffices h : ∀ acc, x ∈ l.foldl (fun acc a => insertLe le a acc) acc ↔ x ∈ acc ∨ x ∈ l by
    have := h []
    simpa [stableSortBy] using this
  induction l with
  | nil => intro acc; simp
  | cons b t ih =>
    intro acc
    simp only [List.foldl_cons, ih, mem_insertLe, List.mem_cons]
    tauto

theorem sorted_stableSortBy (le : α → α → Bool)
    (htot : ∀ a b, le a b ∨ le b a)
    (htrans : ∀ a b c, le a b = true → le b c = true → le a c = true)
    (l : List α) :
    (stableSortBy le l).Pairwise (fun x y => le x y = true) := by
  suffices h : ∀ acc, acc.Pairwise (fun x y => le x y = true) →
      (l.foldl (fun acc a => insertLe le a acc) acc).Pairwise (fun x y => le x y = true) by
    exact h [] (by simp)
  induction l with
  | nil => intro acc hacc; simpa using hacc
  | cons b t ih =>
    intro acc hacc
    exact ih (insertLe le b acc) (sorted_insertLe le htot htrans b acc hacc)

unseal Rat.add Rat.mul Rat.inv Rat.sub in
/-- C2: the Time Parser returns 656.39 for "10:56.39", 4256.0 for
"1:10:56", `10*3600+56*60+39+0.32` for "10.56.39.32" (the four-part
form divides the last component by 100, not 1000), unparseable for
"abc", and 12.5 for the numeric input 12.5. -/
theorem parse_time_value_spec_cases :
    parseTimeValue (.str "10:56.39") = some (65639 / 100 : ℚ) ∧
    parseTimeValue (.str "1:10:56") = some (4256 : ℚ) ∧
    parseTimeValue (.str "10.56.39.32") = some (10 * 3600 + 56 * 60 + 39 + 32 / 100 : ℚ) ∧
    parseTimeValue (.str "abc") = none ∧
    parseTimeValue (.num (25 / 2)) = some (25 / 2 : ℚ) := by
  refine ⟨by decide, by decide, by decide, by decide, by decide⟩

/-- C1 counterexample: `_patch_shorts_data` does not check
`end_time > start_time` — a candidate with `start_time = 5`,
`end_time = 3` survives the Schema Coercer, refuting the claimed
coercion invariant. -/
theorem patch_shorts_data_keeps_reversed_times :
    ((patchShortsData [reversedRawItem]).shorts.map
      (fun c => (c.start_time, c.end_time, c.score))) = [(5, 3, 2)] ∧
    ¬ ((3 : ℚ) > 5) := by
  refine ⟨by decide, by decide⟩

theorem patchShortItem_inv (it : RawItem) (c : PatchedShort)
    (h : patchShortItem it = some c) :
    ∃ d, coerceShortItem it = some d ∧
      (∃ sv, d.start_time? = some sv ∧ parseTimeValue sv = some c.start_time) ∧
      (∃ ev, d.end_time? = some ev ∧ parseTimeValue ev = some c.end_time) ∧
      c.score = pyScoreCoerce d.score? := by
  unfold patchShortItem at h
  split at h
  · exact absurd h (by simp)
  next d hc =>
    refine ⟨d, hc, ?_⟩
    split at h
    · exact absurd h (by simp)
    next sv hsv =>
      split at h
      · exact absurd h (by simp)
      next s hs =>
        split at h
        · exact absurd h (by simp)
        next ev hev =>
          split at h
          · exact absurd h (by simp)
          next e he =>
            simp only [Option.some.injEq] at h
            subst h
            exact ⟨⟨sv, hsv, by rw [hs]⟩, ⟨ev, hev, by rw [he]⟩, rfl⟩

/-- C1 amended: every candidate surviving `_patch_shorts_data` has an
integer score produced by the score coercion and start/end times that
the Time Parser parsed successfully; `end_time > start_time` is *not*
guaranteed (see the counterexample). -/
theorem patch_shorts_data_amended (items : List RawItem) :
    (patchShortsData items).total_shorts = (patchShortsData items).shorts.length ∧
    ∀ c ∈ (patchShortsData items).shorts,
      ∃ it ∈ items, ∃ d, coerceShortItem it = some d ∧
        (∃ sv, d.start_time? = some sv ∧ parseTimeValue sv = some c.start_time) ∧
        (∃ ev, d.end_time? = some ev ∧ parseTimeValue ev = some c.end_time) ∧
        c.score = pyScoreCoerce d.score? := by
  refine ⟨rfl, ?_⟩
  intro c hc
  simp only [patchShortsData, List.mem_filterMap] at hc
  obtain ⟨it, hit, hpatch⟩ := hc
  exact ⟨it, hit, patchShortItem_inv it c hpatch⟩

unseal Rat.add Rat.mul Rat.inv Rat.sub in
theorem patch_shorts_data_amended_witness :
    (patchShortsData [okRawItem]).total_shorts =
      (patchShortsData [okRawItem]).shorts.length ∧
    ∃ it ∈ [okRawItem], ∃ d, coerceShortItem it = some d ∧
      (∃ sv, d.start_time? = some sv ∧ parseTimeValue sv = some (70 : ℚ)) ∧
      (∃ ev, d.end_time? = some ev ∧ parseTimeValue ev = some (90 : ℚ)) ∧
      (7 : ℤ) = pyScoreCoerce d.score? := by
  have h := patch_shorts_data_amended [okRawItem]
  refine ⟨h.1, ?_⟩
  have h2 := h.2 ⟨.str "T", .str "R", 70, 90, 7⟩ (by decide)
  exact h2

unseal Rat.add Rat.mul Rat.inv Rat.sub in
/-- C7: with empty candidate input, `min_shorts = 5` and the pipeline's
refiner parameters over a 600-second evenly segmented transcript, the
backfill synthesizes exactly 5 non-overlapping windows spread across
the transcript, each carrying the fixed placeholder title/reason and
score 0. -/
theorem backfill_scenario :
    (refineShortsOutput ⟨[], 0⟩ backfillTranscript 15 60 (3/2) 0 (some 5) (some 5)).shorts.map
        (fun c => (c.start_time, c.end_time, c.title, c.reason, c.score)) =
      [(0, 60, "Auto Clip", "Auto-generated to meet minimum clip count.", 0),
       (120, 180, "Auto Clip", "Auto-generated to meet minimum clip count.", 0),
       (240, 300, "Auto Clip", "Auto-generated to meet minimum clip count.", 0),
       (360, 420, "Auto Clip", "Auto-generated to meet minimum clip count.", 0),
       (480, 540, "Auto Clip", "Auto-generated to meet minimum clip count.", 0)] ∧
    (refineShortsOutput ⟨[], 0⟩ backfillTranscript 15 60 (3/2) 0 (some 5) (some 5)).total_shorts = 5 ∧
    List.Pairwise (fun a b => a.end_time ≤ b.start_time ∨ b.end_time ≤ a.start_time)
      (refineShortsOutput ⟨[], 0⟩ backfillTranscript 15 60 (3/2) 0 (some 5) (some 5)).shorts ∧
    ∀ c ∈ (refineShortsOutput ⟨[], 0⟩ backfillTranscript 15 60 (3/2) 0 (some 5) (some 5)).shorts,
      0 ≤ c.start_time ∧ c.end_time ≤ 600 := by
  refine ⟨by decide, by decide, by decide, by decide⟩

unseal Rat.add Rat.mul Rat.inv Rat.sub in
/-- C3 counterexample: the refiner keeps the windows `[0, 20]` and
`[3.004, 23.004]` (their overlap ratio `16.996 / 20` is below `0.85`),
but the final rounding to two decimals moves the second window to
`[3, 23]`, whose overlap ratio against `[0, 20]` is exactly
`17 / 20 = 0.85` — so the returned ClipSet contains two windows that
are near-duplicates under the claimed relation (overlap over the
shorter duration ≥ 0.85), refuting the claim for the refiner's actual
output values. -/
theorem refine_rounding_near_duplicate :
    refineShortsOutput roundingInput roundingTranscript 15 60 0 0 none none =
      ⟨[⟨"A", 0, 20, "r1", 5⟩, ⟨"B", 3, 23, "r2", 4⟩], 2⟩ ∧
    ClientNearDuplicate ⟨"A", 0, 20, "r1", 5⟩ ⟨"B", 3, 23, "r2", 4⟩ ∧
    (∀ c ∈ (refineShortsOutput roundingInput roundingTranscript 15 60 0 0 none none).shorts,
      15 ≤ c.end_time - c.start_time ∧ c.end_time - c.start_time ≤ 60) := by
  refine ⟨by decide, by decide, by decide⟩

/-! ## The refiner window invariant (C3, amended) -/

theorem le_clampTime (ts te t : ℚ) : ts ≤ clampTime ts te t :=
  le_max_left _ _

theorem clampTime_le (ts te t : ℚ) (h : ts ≤ te) : clampTime ts te t ≤ te :=
  max_le h (min_le_left te t)

theorem clampTime_le_self (ts te t : ℚ) (h : ts ≤ t) : clampTime ts te t ≤ t :=
  max_le h (min_le_right te t)

theorem clampTime_sub_le (ts te a b : ℚ) (hab : a ≤ b) :
    clampTime ts te b - clampTime ts te a ≤ b - a := by
  unfold clampTime
  rcases le_total te a with h1 | h1 <;> rcases le_total te b with h2 | h2 <;>
    rcases le_total ts (min te a) with h3 | h3 <;> rcases le_total ts (min te b) with h4 | h4 <;>
    simp only [max_def, min_def] at * <;> split_ifs at * <;> linarith

theorem snapStart_bounds (segs : List Segment) (ts : ℚ)
    (hts : ∀ sg ∈ segs, ts ≤ sg.start) (t : ℚ) (h1 : ts ≤ t) :
    ts ≤ snapStart segs ts t ∧ snapStart segs ts t ≤ t := by
  unfold snapStart
  cases hfind : segs.find? (fun sg => decide (sg.start ≤ t ∧ t ≤ sg.end_)) with
  | some sg =>
    have hmem := List.mem_of_find?_eq_some hfind
    have hpred := List.find?_some hfind
    have hp : sg.start ≤ t ∧ t ≤ sg.end_ := by simpa using hpred
    exact ⟨hts sg hmem, hp.1⟩
  | none =>
    simp only
    by_cases he : ((segs.map (·.start)).filter (fun s => decide (s ≤ t))) = []
    · rw [if_pos he]; exact ⟨le_refl ts, h1⟩
    · rw [if_neg he]
      obtain ⟨hmem2, hle⟩ := List.mem_filter.mp (listMax_mem _ he)
      obtain ⟨sg, hsg, heq⟩ := List.mem_map.mp hmem2
      constructor
      · rw [← heq]; exact hts sg hsg
      · simpa using hle

theorem snapEnd_bounds (segs : List Segment) (te : ℚ)
    (hte : ∀ sg ∈ segs, sg.end_ ≤ te) (t : ℚ) (h1 : t ≤ te) :
    t ≤ snapEnd segs te t ∧ snapEnd segs te t ≤ te := by
  unfold snapEnd
  cases hfind : segs.find? (fun sg => decide (sg.start ≤ t ∧ t ≤ sg.end_)) with
  | some sg =>
    have hmem := List.mem_of_find?_eq_some hfind
    have hpred := List.find?_some hfind
    have hp : sg.start ≤ t ∧ t ≤ sg.end_ := by simpa using hpred
    exact ⟨hp.2, hte sg hmem⟩
  | none =>
    simp only
    by_cases he : ((segs.map (·.end_)).filter (fun e => decide (t ≤ e))) = []
    · rw [if_pos he]; exact ⟨h1, le_refl te⟩
    · rw [if_neg he]
      obtain ⟨hmem2, hle⟩ := List.mem_filter.mp (listMin_mem _ he)
      obtain ⟨sg, hsg, heq⟩ := List.mem_map.mp hmem2
      constructor
      · simpa using hle
      · rw [← heq]; exact hte sg hsg

theorem enforceStage1_spec (segs : List Segment) (ts te minLen maxLen : ℚ)
    (hts : ∀ sg ∈ segs, ts ≤ sg.start) (hte : ∀ sg ∈ segs, sg.end_ ≤ te)
    (hst : ts ≤ te) (w : Window) :
    (enforceStage1 segs ts te minLen maxLen w).end_ -
        (enforceStage1 segs ts te minLen maxLen w).start ≤ maxLen ∨
      (ts ≤ (enforceStage1 segs ts te minLen maxLen w).start ∧
        (enforceStage1 segs ts te minLen maxLen w).start ≤ te) := by
  unfold enforceStage1
  dsimp only
  split_ifs with h1 h2
  · right
    have hc := le_clampTime ts te (w.anchor_mid - maxLen / 2)
    have hc2 := clampTime_le ts te (w.anchor_mid - maxLen / 2) hst
    have hb := snapStart_bounds segs ts hts (clampTime ts te (w.anchor_mid - maxLen / 2)) hc
    exact ⟨hb.1, le_trans hb.2 hc2⟩
  · right
    have hc := le_clampTime ts te (w.anchor_mid - minLen / 2)
    have hc2 := clampTime_le ts te (w.anchor_mid - minLen / 2) hst
    have hb := snapStart_bounds segs ts hts (clampTime ts te (w.anchor_mid - minLen / 2)) hc
    exact ⟨hb.1, le_trans hb.2 hc2⟩
  · left; linarith [not_lt.mp h1]

theorem enforceStage2_spec (ts te maxLen : ℚ) (hmax : 0 ≤ maxLen) (w : Window)
    (h : w.end_ - w.start ≤ maxLen ∨ (ts ≤ w.start ∧ w.start ≤ te)) :
    (enforceStage2 ts te maxLen w).end_ - (enforceStage2 ts te maxLen w).start ≤ maxLen := by
  unfold enforceStage2
  split_ifs with hg
  · rcases h with h | ⟨h1, h2⟩
    · exact absurd h (not_le.mpr hg)
    · have hcl : clampTime ts te (w.start + maxLen) ≤ w.start + maxLen :=
        clampTime_le_self ts te (w.start + maxLen) (by linarith)
      simp only
      linarith
  · exact not_lt.mp hg

theorem enforceStage3_spec (ts te minLen maxLen : ℚ) (hmm : minLen ≤ maxLen)
    (h0 : 0 ≤ minLen) (w : Window) (h : w.end_ - w.start ≤ maxLen) :
    (enforceStage3 ts te minLen w).end_ - (enforceStage3 ts te minLen w).start ≤ maxLen := by
  unfold enforceStage3
  split_ifs with hg
  · have hc := clampTime_sub_le ts te (w.anchor_mid - minLen / 2) (w.anchor_mid + minLen / 2)
      (by linarith)
    simp only
    linarith
  · exact h

theorem enforceLength_dur_le_max (segs : List Segment) (ts te minLen maxLen : ℚ)
    (hts : ∀ sg ∈ segs, ts ≤ sg.start) (hte : ∀ sg ∈ segs, sg.end_ ≤ te)
    (hst : ts ≤ te) (h0 : 0 ≤ minLen) (hmm : minLen ≤ maxLen) (w : Window) :
    (enforceLength segs ts te minLen maxLen w).end_ -
      (enforceLength segs ts te minLen maxLen w).start ≤ maxLen := by
  unfold enforceLength
  exact enforceStage3_spec ts te minLen maxLen hmm h0 _
    (enforceStage2_spec ts te maxLen (le_trans h0 hmm) _
      (enforceStage1_spec segs ts te minLen maxLen hts hte hst w))

theorem isSimilar_comm (a b : Window) : IsSimilar a b ↔ IsSimilar b a := by
  unfold IsSimilar
  rw [abs_sub_comm a.start b.start, abs_sub_comm a.end_ b.end_,
    min_comm a.end_ b.end_, max_comm a.start b.start,
    min_comm (a.end_ - a.start) (b.end_ - b.start)]

theorem windowsInvariant_nil (minLen maxLen : ℚ) : WindowsInvariant minLen maxLen [] :=
  ⟨by simp, by simp⟩

theorem windowsInvariant_append (minLen maxLen : ℚ) (l : List Window) (w : Window)
    (hI : WindowsInvariant minLen maxLen l)
    (h1 : minLen ≤ w.end_ - w.start) (h2 : w.end_ - w.start ≤ maxLen)
    (h3 : ∀ r ∈ l, ¬ IsSimilar w r) :
    WindowsInvariant minLen maxLen (l ++ [w]) := by
  constructor
  · intro x hx
    rcases List.mem_append.mp hx with hx | hx
    · exact hI.1 x hx
    · rcases List.mem_singleton.mp hx with rfl
      exact ⟨h1, h2⟩
  · rw [List.pairwise_append]
    refine ⟨hI.2, by simp, ?_⟩
    intro a ha b hb
    rcases List.mem_singleton.mp hb with rfl
    exact fun hs => h3 a ha ((isSimilar_comm _ _).mpr hs)

theorem not_any_isSimilar (w : Window) (l : List Window)
    (h : ¬ (l.any (fun r => decide (IsSimilar w r)) = true)) :
    ∀ r ∈ l, ¬ IsSimilar w r := by
  intro r hr hs
  exact h (List.any_eq_true.mpr ⟨r, hr, by simpa using hs⟩)

theorem dedupStep_invariant (segs : List Segment) (ts te minLen maxLen : ℚ)
    (hts : ∀ sg ∈ segs, ts ≤ sg.start) (hte : ∀ sg ∈ segs, sg.end_ ≤ te)
    (hst : ts ≤ te) (h0 : 0 ≤ minLen) (hmm : minLen ≤ maxLen)
    (acc : List Window) (win : Window)
    (hI : WindowsInvariant minLen maxLen acc) :
    WindowsInvariant minLen maxLen (dedupStep segs ts te minLen maxLen acc win) := by
  unfold dedupStep
  dsimp only
  split_ifs with h1 h2
  · exact hI
  · exact windowsInvariant_append minLen maxLen acc _ hI h1
      (enforceLength_dur_le_max segs ts te minLen maxLen hts hte hst h0 hmm win)
      (not_any_isSimilar _ acc (by simpa using h2))
  · exact hI

theorem dedupEnforce_invariant (segs : List Segment) (ts te minLen maxLen : ℚ)
    (hts : ∀ sg ∈ segs, ts ≤ sg.start) (hte : ∀ sg ∈ segs, sg.end_ ≤ te)
    (hst : ts ≤ te) (h0 : 0 ≤ minLen) (hmm : minLen ≤ maxLen)
    (l : List Window) :
    WindowsInvariant minLen maxLen (dedupEnforce segs ts te minLen maxLen l) := by
  unfold dedupEnforce
  suffices h : ∀ acc, WindowsInvariant minLen maxLen acc →
      WindowsInvariant minLen maxLen (l.foldl (dedupStep segs ts te minLen maxLen) acc) from
    h [] (windowsInvariant_nil minLen maxLen)
  induction l with
  | nil => intro acc hacc; simpa using hacc
  | cons win t ih =>
    intro acc hacc
    rw [List.foldl_cons]
    exact ih _ (dedupStep_invariant segs ts te minLen maxLen hts hte hst h0 hmm acc win hacc)

theorem findSome?_some {α β : Type} {f : α → Option β} {l : List α} {b : β}
    (h : l.findSome? f = some b) : ∃ a ∈ l, f a = some b := by
  induction l with
  | nil => simp [List.findSome?] at h
  | cons x t ih =>
    rw [List.findSome?_cons] at h
    cases hfx : f x with
    | some y =>
      rw [hfx] at h
      exact ⟨x, List.mem_cons_self x t, hfx.trans h⟩
    | none =>
      rw [hfx] at h
      obtain ⟨a, ha, hfa⟩ := ih h
      exact ⟨a, List.mem_cons.mpr (Or.inr ha), hfa⟩

theorem backfillAttempt_some (segs : List Segment) (ts te minLen maxLen pad : ℚ)
    (hts : ∀ sg ∈ segs, ts ≤ sg.start) (hte : ∀ sg ∈ segs, sg.end_ ≤ te)
    (hst : ts ≤ te) (h0 : 0 ≤ minLen) (hmm : minLen ≤ maxLen)
    (target : List Window) (base_mid : ℚ) (att : ℕ) (w : Window)
    (h : backfillAttempt segs ts te minLen maxLen pad target base_mid att = some w) :
    minLen ≤ w.end_ - w.start ∧ w.end_ - w.start ≤ maxLen ∧
      ∀ r ∈ target, ¬ IsSimilar w r := by
  unfold backfillAttempt at h
  dsimp only at h
  split_ifs at h with h1 h2
  rw [Option.some.injEq] at h
  subst h
  refine ⟨by dsimp only; linarith [not_lt.mp h1], ?_, ?_⟩
  · exact enforceLength_dur_le_max segs ts te minLen maxLen hts hte hst h0 hmm _
  · exact not_any_isSimilar _ target (by simpa using h2)

theorem backfillSlot_invariant (segs : List Segment) (ts te minLen maxLen pad : ℚ)
    (hts : ∀ sg ∈ segs, ts ≤ sg.start) (hte : ∀ sg ∈ segs, sg.end_ ≤ te)
    (hst : ts ≤ te) (h0 : 0 ≤ minLen) (hmm : minLen ≤ maxLen)
    (m : ℕ) (target : List Window) (i : ℕ)
    (hI : WindowsInvariant minLen maxLen target) :
    WindowsInvariant minLen maxLen (backfillSlot segs ts te minLen maxLen pad m target i) := by
  unfold backfillSlot
  dsimp only
  by_cases hlen : m ≤ target.length
  · rw [if_pos hlen]; exact hI
  · rw [if_neg hlen]
    cases hfind : (List.range 5).findSome?
        (backfillAttempt segs ts te minLen maxLen pad target
          (ts + ((i : ℚ) + 1/2) * (max 1 (te - ts) / (m : ℚ)))) with
    | some w =>
      obtain ⟨att, _, hatt⟩ := findSome?_some hfind
      obtain ⟨hw1, hw2, hw3⟩ :=
        backfillAttempt_some segs ts te minLen maxLen pad hts hte hst h0 hmm target _ att w hatt
      exact windowsInvariant_append minLen maxLen target w hI hw1 hw2 hw3
    | none =>
      split_ifs with hc
      · refine windowsInvariant_append minLen maxLen target _ hI ?_ ?_ ?_
        · exact hc.1
        · exact enforceLength_dur_le_max segs ts te minLen maxLen hts hte hst h0 hmm _
        · exact not_any_isSimilar _ target (by simpa using hc.2)
      · exact hI

theorem backfillPass_invariant (segs : List Segment) (ts te minLen maxLen pad : ℚ)
    (hts : ∀ sg ∈ segs, ts ≤ sg.start) (hte : ∀ sg ∈ segs, sg.end_ ≤ te)
    (hst : ts ≤ te) (h0 : 0 ≤ minLen) (hmm : minLen ≤ maxLen)
    (m : ℕ) (target : List Window)
    (hI : WindowsInvariant minLen maxLen target) :
    WindowsInvariant minLen maxLen (backfillPass segs ts te minLen maxLen pad m target) := by
  unfold backfillPass
  suffices h : ∀ (l : List ℕ) (acc : List Window), WindowsInvariant minLen maxLen acc →
      WindowsInvariant minLen maxLen
        (l.foldl (backfillSlot segs ts te minLen maxLen pad m) acc) from
    h (List.range m) target hI
  intro l
  induction l with
  | nil => intro acc hacc; simpa using hacc
  | cons i t ih =>
    intro acc hacc
    rw [List.foldl_cons]
    exact ih _ (backfillSlot_invariant segs ts te minLen maxLen pad hts hte hst h0 hmm m acc i hacc)

theorem windowsInvariant_take (minLen maxLen : ℚ) (n : ℕ) (l : List Window)
    (hI : WindowsInvariant minLen maxLen l) :
    WindowsInvariant minLen maxLen (l.take n) :=
  ⟨fun w hw => hI.1 w ((List.take_sublist n l).subset hw),
   List.Pairwise.sublist (List.take_sublist n l) hI.2⟩

theorem postProcess_invariant (segs : List Segment) (ts te minLen maxLen pad mg : ℚ)
    (hts : ∀ sg ∈ segs, ts ≤ sg.start) (hte : ∀ sg ∈ segs, sg.end_ ≤ te)
    (hst : ts ≤ te) (h0 : 0 ≤ minLen) (hmm : minLen ≤ maxLen)
    (maxShorts? minShorts? : Option ℕ) (windows : List Window) :
    WindowsInvariant minLen maxLen
      (postProcess segs ts te minLen maxLen pad mg maxShorts? minShorts? windows) := by
  unfold postProcess
  dsimp only
  have h1 := dedupEnforce_invariant segs ts te minLen maxLen hts hte hst h0 hmm
    (mergePass mg (stableSortBy (fun a b => decide (a.start ≤ b.start)) windows))
  have h2 : WindowsInvariant minLen maxLen
      (match minShorts? with
       | some m =>
         if (dedupEnforce segs ts te minLen maxLen
              (mergePass mg (stableSortBy (fun a b => decide (a.start ≤ b.start)) windows))).length < m then
           backfillPass segs ts te minLen maxLen pad m
             (dedupEnforce segs ts te minLen maxLen
               (mergePass mg (stableSortBy (fun a b => decide (a.start ≤ b.start)) windows)))
         else
           dedupEnforce segs ts te minLen maxLen
             (mergePass mg (stableSortBy (fun a b => decide (a.start ≤ b.start)) windows))
       | none =>
         dedupEnforce segs ts te minLen maxLen
           (mergePass mg (stableSortBy (fun a b => decide (a.start ≤ b.start)) windows))) := by
    cases minShorts? with
    | none => exact h1
    | some m =>
      dsimp only
      split_ifs with hlt
      · exact backfillPass_invariant segs ts te minLen maxLen pad hts hte hst h0 hmm m _ h1
      · exact h1
  cases maxShorts? with
  | none => exact h2
  | some m => exact windowsInvariant_take minLen maxLen m _ h2

/-- C3 amended: for a nonempty well-formed transcript and
`0 ≤ min_len ≤ max_len`, the Boundary Refiner either returns its input
unchanged (which happens exactly when no window survives at all) or
returns the refined window list converted to clips, where the refined
window list satisfies: every window's duration lies in
`[min_len, max_len]`, and no two windows are near-duplicates.  The
invariant is stated on the window boundaries *before* the final
rounding to two decimals; the counterexample shows the rounding can
break the near-duplicate half of the claim on the returned values. -/
theorem refine_shorts_output_amended (o : ShortsOutput) (tr : Transcript)
    (minLen maxLen pad mg : ℚ) (maxShorts? minShorts? : Option ℕ)
    (hne : tr.segments ≠ []) (hwf : ∀ sg ∈ tr.segments, sg.start ≤ sg.end_)
    (h0 : 0 ≤ minLen) (hmm : minLen ≤ maxLen) :
    refineShortsOutput o tr minLen maxLen pad mg maxShorts? minShorts? = o ∨
    ∃ ws, WindowsInvariant minLen maxLen ws ∧
      refineShortsOutput o tr minLen maxLen pad mg maxShorts? minShorts? =
        { shorts := ws.map toShortClient, total_shorts := (ws.map toShortClient).length } := by
  have hsegne : sortedSegs tr ≠ [] := by
    obtain ⟨sg, hsg⟩ := List.exists_mem_of_ne_nil tr.segments hne
    exact List.ne_nil_of_mem ((mem_stableSortBy _ _ _).mpr hsg)
  have hts : ∀ sg ∈ sortedSegs tr, transcriptStart tr ≤ sg.start := fun sg hsg =>
    listMin_le _ _ (List.mem_map_of_mem _ hsg)
  have hte : ∀ sg ∈ sortedSegs tr, sg.end_ ≤ transcriptEnd tr := fun sg hsg =>
    le_listMax _ _ (List.mem_map_of_mem _ hsg)
  have hst : transcriptStart tr ≤ transcriptEnd tr := by
    obtain ⟨sg, hsg⟩ := List.exists_mem_of_ne_nil _ hsegne
    have h1 := hts sg hsg
    have h2 := hte sg hsg
    have h3 := hwf sg ((mem_stableSortBy _ _ _).mp hsg)
    linarith
  unfold refineShortsOutput
  rw [if_neg hne]
  split_ifs with hc1 hc2
  · exact Or.inl rfl
  · exact Or.inl rfl
  · right
    exact ⟨postProcess (sortedSegs tr) (transcriptStart tr) (transcriptEnd tr)
        minLen maxLen pad mg maxShorts? minShorts?
        (windowsAfterBackfill tr minLen maxLen pad minShorts? o.shorts),
      postProcess_invariant (sortedSegs tr) (transcriptStart tr) (transcriptEnd tr)
        minLen maxLen pad mg hts hte hst h0 hmm maxShorts? minShorts? _, rfl⟩

unseal Rat.add Rat.mul Rat.inv Rat.sub in
theorem refine_shorts_output_amended_witness :
    (roundingTranscript.segments ≠ [] ∧
      (∀ sg ∈ roundingTranscript.segments, sg.start ≤ sg.end_) ∧
      (0 : ℚ) ≤ 15 ∧ (15 : ℚ) ≤ 60) ∧
    (refineShortsOutput roundingInput roundingTranscript 15 60 0 0 none none = roundingInput ∨
      ∃ ws, WindowsInvariant 15 60 ws ∧
        refineShortsOutput roundingInput roundingTranscript 15 60 0 0 none none =
          { shorts := ws.map toShortClient, total_shorts := (ws.map toShortClient).length }) :=
  ⟨⟨by decide, by decide, by decide, by decide⟩,
    refine_shorts_output_amended roundingInput roundingTranscript 15 60 0 0 none none
      (by decide) (by decide) (by decide) (by decide)⟩

unseal Rat.add Rat.mul Rat.inv Rat.sub in
/-- C4 counterexample: with `target_shorts = 2` and
`min_gap_seconds = 20`, `_rank_and_spread` selects the two per-bucket
winners whose midpoints are only 10 seconds apart — even though the
target of two clips could have been met while respecting the gap
(`c1` and `c3` are 55 seconds apart).  Per-bucket winners are selected
without any midpoint-gap check, refuting the claimed ranking
invariant. -/
theorem rank_and_spread_gap_violation :
    rankAndSpread [rankC1, rankC2, rankC3] rankTranscript 2 20 = [rankC1, rankC2] ∧
    |clipMid rankC1 - clipMid rankC2| < 20 ∧
    (20 : ℚ) ≤ |clipMid rankC1 - clipMid rankC3| := by
  refine ⟨by decide, by decide, by decide⟩

theorem fillPass_spec (gap : ℚ) (target : ℕ) (rem sel : List ShortClient) :
    ∃ added, fillPass gap target sel rem = sel ++ added ∧
      ∀ a ∈ added, ∀ s ∈ sel, gap ≤ |clipMid a - clipMid s| := by
  induction rem generalizing sel with
  | nil => exact ⟨[], by simp [fillPass], by simp⟩
  | cons c rest ih =>
    unfold fillPass
    by_cases h1 : target ≤ sel.length
    · rw [if_pos h1]
      exact ⟨[], by simp, by simp⟩
    · rw [if_neg h1]
      by_cases h2 : farEnough gap sel c = true
      · rw [if_pos h2]
        obtain ⟨added, heq, hprop⟩ := ih (sel ++ [c])
        refine ⟨c :: added, by rw [heq]; simp, ?_⟩
        intro a ha s hs
        rcases List.mem_cons.mp ha with rfl | ha
        · have hall := List.all_eq_true.mp h2 s hs
          have hnl : ¬ (|clipMid a - clipMid s| < gap) := by simpa using hall
          linarith [not_lt.mp hnl]
        · exact hprop a ha s (List.mem_append.mpr (Or.inl hs))
      · rw [if_neg h2]
        exact ih sel

theorem sorted_take_sortByStart (l : List ShortClient) (n : ℕ) :
    List.Pairwise (fun a b => a.start_time ≤ b.start_time)
      ((stableSortBy (fun a b => decide (a.start_time ≤ b.start_time)) l).take n) := by
  have hsorted := sorted_stableSortBy (fun a b => decide (a.start_time ≤ b.start_time))
    (fun a b => by rcases le_total a.start_time b.start_time with h | h <;> simp [h])
    (fun a b c hab hbc => by
      simp only [decide_eq_true_eq] at hab hbc ⊢
      exact le_trans hab hbc)
    l
  have h2 := List.Pairwise.sublist (List.take_sublist n _) hsorted
  exact h2.imp (fun h => by simpa using h)

/-- C4 amended: `_rank_and_spread` returns at most `target_shorts`
clips, sorted by start time; the minimum-midpoint-gap guarantee holds
only for the clips added by the greedy fill pass relative to the
clips already selected at the moment they are added — per-bucket
winners (and relaxed second-pass additions) are not gap-checked, as
the counterexample shows. -/
theorem rank_and_spread_amended (candidates : List ShortClient) (tr : Transcript)
    (target : ℕ) (gap : ℚ) :
    (rankAndSpread candidates tr target gap).length ≤ target ∧
    List.Pairwise (fun a b => a.start_time ≤ b.start_time)
      (rankAndSpread candidates tr target gap) ∧
    ∀ sel rem, ∃ added, fillPass gap target sel rem = sel ++ added ∧
      ∀ a ∈ added, ∀ s ∈ sel, gap ≤ |clipMid a - clipMid s| := by
  refine ⟨?_, ?_, fun sel rem => fillPass_spec gap target rem sel⟩
  · unfold rankAndSpread
    by_cases hc : candidates = []
    · rw [if_pos hc]; simp
    · rw [if_neg hc]
      dsimp only
      rw [List.length_take]
      exact min_le_left _ _
  · unfold rankAndSpread
    by_cases hc : candidates = []
    · rw [if_pos hc]; simp
    · rw [if_neg hc]
      dsimp only
      exact sorted_take_sortByStart _ target

unseal Rat.add Rat.mul Rat.inv Rat.sub in
theorem rank_and_spread_amended_witness :
    (rankAndSpread [rankC1, rankC2, rankC3] rankTranscript 2 20).length ≤ 2 ∧
    List.Pairwise (fun a b => a.start_time ≤ b.start_time)
      (rankAndSpread [rankC1, rankC2, rankC3] rankTranscript 2 20) ∧
    ∃ added, fillPass 20 2 [rankC1] [rankC3] = [rankC1] ++ added ∧
      ∀ a ∈ added, ∀ s ∈ [rankC1], (20 : ℚ) ≤ |clipMid a - clipMid s| :=
  ⟨(rank_and_spread_amended [rankC1, rankC2, rankC3] rankTranscript 2 20).1,
   (rank_and_spread_amended [rankC1, rankC2, rankC3] rankTranscript 2 20).2.1,
   (rank_and_spread_amended [rankC1, rankC2, rankC3] rankTranscript 2 20).2.2 [rankC1] [rankC3]⟩

/-! ## Quality Enricher properties (C5, C9, C10) -/

theorem pyEndsWith_append_dot (s : String) : pyEndsWith (s ++ ".") "." = true := by
  unfold pyEndsWith
  have h1 : (s ++ ".").toList = s.toList ++ ['.'] := by
    show (s ++ ".").data = s.data ++ ['.']
    rw [String.data_append]
  rw [h1]
  have h2 : ".".toList = ['.'] := rfl
  rw [h2]
  simp

theorem ensureDot_ends (r : String) : pyEndsWith (ensureDot r) "." = true := by
  unfold ensureDot
  split_ifs with h
  · exact h
  · exact pyEndsWith_append_dot r

theorem make_reason_from_text_dot (text : String) :
    make_reason_from_text text = "" ∨
      pyEndsWith (make_reason_from_text text) "." = true := by
  unfold make_reason_from_text
  cases hs : extract_sentences text with
  | nil => exact Or.inl rfl
  | cons s0 rest => exact Or.inr (ensureDot_ends _)

theorem reasonSynth_dot (text r0 : String) :
    pyEndsWith (if (if text ≠ "" then make_reason_from_text text else r0) = ""
        then "Highlights a clear, self-contained point from the segment."
        else if text ≠ "" then make_reason_from_text text else r0) "." = true ∨
    (if (if text ≠ "" then make_reason_from_text text else r0) = ""
        then "Highlights a clear, self-contained point from the segment."
        else if text ≠ "" then make_reason_from_text text else r0) = r0 := by
  by_cases ht : text ≠ ""
  · simp only [if_pos ht]
    rcases make_reason_from_text_dot text with h | h
    · left; rw [h]; decide
    · by_cases hmr : make_reason_from_text text = ""
      · left; rw [hmr]; decide
      · left; rw [if_neg hmr]; exact h
  · simp only [if_neg ht]
    by_cases hr : r0 = ""
    · left; rw [if_pos hr]; decide
    · right; rw [if_neg hr]

theorem enrichClipStep_reason_dot (counts : String → ℕ) (idx : ℕ)
    (short : ShortClient) (text : String) :
    pyEndsWith (enrichClipStep counts idx short text).reason "." = true ∨
      (enrichClipStep counts idx short text).reason = short.reason := by
  unfold enrichClipStep
  dsimp only
  by_cases hflag : short.reason = "" ∨ is_generic_reason short.reason = true ∨
      (is_non_english_text short.title = true ∨ is_non_english_text short.reason = true)
  · rw [if_pos hflag]
    exact reasonSynth_dot text short.reason
  · rw [if_neg hflag]
    exact Or.inr rfl

theorem enrichClipStep_no_excerpt (counts : String → ℕ) (idx : ℕ) (short : ShortClient) :
    (enrichClipStep counts idx short "").title =
      (if short.title = "" then "Clip " ++ toString (idx + 1) else short.title) ∧
    (enrichClipStep counts idx short "").reason =
      (if short.reason = "" then "Highlights a clear, self-contained point from the segment."
       else short.reason) := by
  unfold enrichClipStep
  dsimp only
  constructor
  · split_ifs <;> simp_all
  · split_ifs <;> simp_all

/-- C9 amended: (1) `make_reason_from_text` always returns the empty
string or a reason ending with a period, (2) the enrichment loop
leaves a clip's reason either unchanged or ending with a period (so
every locally synthesized reason ends with a period), and (3) for a
clip whose excerpt text is empty, the numbered placeholder title
`"Clip N"` is applied only when the clip's title is empty, and the
fixed generic reason only when the clip's reason is empty — a
non-empty flagged title/reason is left unchanged, contrary to the
original claim (see the counterexample). -/
theorem enrich_local_synthesis_amended :
    (∀ text, make_reason_from_text text = "" ∨
      pyEndsWith (make_reason_from_text text) "." = true) ∧
    (∀ (counts : String → ℕ) (idx : ℕ) (short : ShortClient) (text : String),
      pyEndsWith (enrichClipStep counts idx short text).reason "." = true ∨
        (enrichClipStep counts idx short text).reason = short.reason) ∧
    (∀ (counts : String → ℕ) (idx : ℕ) (short : ShortClient),
      (enrichClipStep counts idx short "").title =
        (if short.title = "" then "Clip " ++ toString (idx + 1) else short.title) ∧
      (enrichClipStep counts idx short "").reason =
        (if short.reason = "" then "Highlights a clear, self-contained point from the segment."
         else short.reason)) :=
  ⟨make_reason_from_text_dot, enrichClipStep_reason_dot, enrichClipStep_no_excerpt⟩

unseal Rat.add Rat.mul Rat.inv Rat.sub in
/-- C9 counterexample: a clip whose title (`"Untitled Segment"`) and
reason (`"n/a"`) are both flagged as generic, over a transcript with
no excerpt text, passes through the Quality Enricher *unchanged*: it
receives neither the numbered placeholder title `"Clip 1"` nor the
fixed generic reason, refuting the claim that any still-flagged clip
without excerpt text receives them. -/
theorem enrich_no_excerpt_keeps_flagged_fields :
    clip_text noExcerptTranscript.segments 0 1 = "" ∧
    is_generic_title "Untitled Segment" = true ∧
    is_generic_reason "n/a" = true ∧
    pyEnrich ⟨[flaggedClip], 1⟩ noExcerptTranscript [] = ⟨[flaggedClip], 1⟩ ∧
    flaggedClip.title ≠ "Clip 1" ∧
    flaggedClip.reason ≠ "Highlights a clear, self-contained point from the segment." := by
  refine ⟨by decide, by decide, by decide, by decide, by decide, by decide⟩

theorem modifyIdx_map_eq {α β : Type} (g : α → β) (f : α → α)
    (hf : ∀ a, g (f a) = g a) (l : List α) (n : ℕ) :
    (modifyIdx l n f).map g = l.map g := by
  induction l generalizing n with
  | nil => rfl
  | cons a t ih =>
    cases n with
    | zero => simp [modifyIdx, hf]
    | succ n => simp [modifyIdx, ih]

theorem applyPatch_frame (shorts : List ShortClient) (p : RepairPatch) :
    (applyPatch shorts p).map clipFrame = shorts.map clipFrame := by
  unfold applyPatch
  split_ifs with h
  · rfl
  · apply modifyIdx_map_eq
    intro c
    dsimp only
    split_ifs <;> rfl

theorem applyLlmRepairs_frame (shorts : List ShortClient) (patches : List RepairPatch) :
    (applyLlmRepairs shorts patches).map clipFrame = shorts.map clipFrame := by
  unfold applyLlmRepairs
  induction patches generalizing shorts with
  | nil => rfl
  | cons p rest ih =>
    rw [List.foldl_cons]
    rw [ih (applyPatch shorts p), applyPatch_frame]

theorem enrichClipStep_frame (counts : String → ℕ) (idx : ℕ) (short : ShortClient)
    (text : String) :
    clipFrame (enrichClipStep counts idx short text) = clipFrame short := rfl

theorem enrichLoop_frame (counts : String → ℕ) (segments : List Segment)
    (shorts : List ShortClient) :
    (shorts.enum.map
      (fun p => enrichClipStep counts p.1 p.2
        (clip_text segments p.2.start_time p.2.end_time))).map clipFrame =
      shorts.map clipFrame := by
  rw [List.map_map]
  have h1 : (clipFrame ∘ fun p : ℕ × ShortClient =>
      enrichClipStep counts p.1 p.2 (clip_text segments p.2.start_time p.2.end_time)) =
      (fun p : ℕ × ShortClient => clipFrame p.2) := by
    funext p
    exact enrichClipStep_frame counts p.1 p.2 _
  rw [h1]
  rw [show (fun p : ℕ × ShortClient => clipFrame p.2) = clipFrame ∘ Prod.snd from rfl]
  rw [← List.map_map, List.enum_map_snd]

/-- C10: the Quality Enricher (including the application of the
LLM repair patches) changes only titles and reasons: every clip's
start time, end time and score are unchanged, and the number and
order of clips are preserved. -/
theorem enrich_shorts_frame (o : ShortsOutput) (tr : Transcript)
    (patches : List RepairPatch) :
    (pyEnrich o tr patches).shorts.map clipFrame = o.shorts.map clipFrame ∧
    (pyEnrich o tr patches).shorts.length = o.shorts.length := by
  have hmap : (pyEnrich o tr patches).shorts.map clipFrame = o.shorts.map clipFrame := by
    unfold pyEnrich
    split_ifs with h1 h2
    · rfl
    · dsimp only
      rw [enrichLoop_frame, applyLlmRepairs_frame]
    · dsimp only
      rw [enrichLoop_frame]
  refine ⟨hmap, ?_⟩
  have := congrArg List.length hmap
  simpa using this

theorem refine_total_eq_length (o : ShortsOutput) (tr : Transcript)
    (minLen maxLen pad mg : ℚ) (maxShorts? minShorts? : Option ℕ)
    (h : o.total_shorts = o.shorts.length) :
    (refineShortsOutput o tr minLen maxLen pad mg maxShorts? minShorts?).total_shorts =
      (refineShortsOutput o tr minLen maxLen pad mg maxShorts? minShorts?).shorts.length := by
  unfold refineShortsOutput
  split_ifs <;> first | exact h | rfl

theorem enrich_total_eq_length (o : ShortsOutput) (tr : Transcript)
    (patches : List RepairPatch) (h : o.total_shorts = o.shorts.length) :
    (pyEnrich o tr patches).total_shorts = (pyEnrich o tr patches).shorts.length := by
  unfold pyEnrich
  split_ifs <;> first | exact h | rfl

/-- C5: every ClipSet produced at the pipeline's public interface has
`total_shorts = len(shorts)`.  All interface paths
(`select_shorts`, `select_shorts_chunked` and their helpers) return
`_enrich_shorts(refine_shorts_output(ShortsOutput(shorts=l,
total_shorts=len(l)), ...), ...)` for some clip list `l` (with `l = []`
for the repair-failure and no-chunk-succeeded paths), and both stages
preserve the consistency of that construction. -/
theorem pipeline_total_shorts_consistent (ranked : List ShortClient) (tr : Transcript)
    (minLen maxLen pad mg : ℚ) (maxShorts? minShorts? : Option ℕ)
    (patches : List RepairPatch) :
    (pyEnrich (refineShortsOutput ⟨ranked, ranked.length⟩ tr minLen maxLen pad mg
        maxShorts? minShorts?) tr patches).total_shorts =
      (pyEnrich (refineShortsOutput ⟨ranked, ranked.length⟩ tr minLen maxLen pad mg
        maxShorts? minShorts?) tr patches).shorts.length :=
  enrich_total_eq_length _ tr patches
    (refine_total_eq_length _ tr minLen maxLen pad mg maxShorts? minShorts? rfl)

/-- C6: the Repair Escalation runs exactly when the extraction cascade
fails outright — a successful parse, even with an empty candidate
list, is returned as-is without escalation — and when the repair
attempt itself fails (the repair call raises, or its reply does not
parse), the step returns the empty ClipSet `(shorts=[],
total_shorts=0)`; the embedding is a total function, i.e. no path
raises. -/
theorem repair_escalation_spec (env : ExtractionEnv) (content : String) :
    ((extractWithRepair env content).2 = true ↔ env.parseOutcome content = none) ∧
    (∀ o, env.parseOutcome content = some o → extractWithRepair env content = (o, false)) ∧
    (env.parseOutcome content = none →
      (env.repairReply = none → extractWithRepair env content = (⟨[], 0⟩, true)) ∧
      (∀ r, env.repairReply = some r →
        env.parseOutcome (env.cleanContent (pyStrip r)) = none →
        extractWithRepair env content = (⟨[], 0⟩, true))) := by
  refine ⟨?_, ?_, ?_⟩
  · constructor
    · intro h
      cases hp : env.parseOutcome content with
      | none => rfl
      | some o =>
        simp only [extractWithRepair, hp] at h
        exact absurd h (by simp)
    · intro h
      simp only [extractWithRepair, h]
  · intro o h
    simp only [extractWithRepair, h]
  · intro h
    constructor
    · intro hr
      simp only [extractWithRepair, h, repairAndParse, hr]
    · intro r hr hparse
      simp only [extractWithRepair, h, repairAndParse, hr, hparse]

theorem repair_escalation_spec_witness :
    ((extractWithRepair failingEnv "bad").2 = true ↔ failingEnv.parseOutcome "bad" = none) ∧
    extractWithRepair failingEnv "bad" = (⟨[], 0⟩, true) :=
  ⟨(repair_escalation_spec failingEnv "bad").1,
    ((repair_escalation_spec failingEnv "bad").2.2 rfl).2 "x" rfl rfl⟩

theorem collectChunkShorts_skip_eq (sel : Transcript → Option ShortsOutput)
    (chunks : List Transcript) :
    collectChunkShorts sel chunks =
      collectChunkShorts
        (fun c => match sel c with | none => some (⟨[], 0⟩ : ShortsOutput) | some o => some o)
        chunks := by
  unfold collectChunkShorts
  suffices h : ∀ acc, chunks.foldl
      (fun acc c => match sel c with | none => acc | some o => acc ++ o.shorts) acc =
      chunks.foldl
        (fun acc c =>
          match (match sel c with | none => some (⟨[], 0⟩ : ShortsOutput) | some o => some o) with
          | none => acc
          | some o => acc ++ o.shorts) acc from h []
  induction chunks with
  | nil => intro acc; rfl
  | cons c t ih =>
    intro acc
    rw [List.foldl_cons, List.foldl_cons]
    cases hc : sel c with
    | none =>
      dsimp only
      rw [List.append_nil]
      exact ih acc
    | some o =>
      dsimp only
      exact ih (acc ++ o.shorts)

theorem collectChunkShorts_all_fail (sel : Transcript → Option ShortsOutput)
    (chunks : List Transcript) (h : ∀ c ∈ chunks, sel c = none) :
    collectChunkShorts sel chunks = [] := by
  unfold collectChunkShorts
  induction chunks with
  | nil => rfl
  | cons c t ih =>
    rw [List.foldl_cons]
    rw [h c (List.mem_cons_self c t)]
    exact ih (fun c hc => h c (List.mem_cons.mpr (Or.inr hc)))

/-- C8: in multi-chunk mode, (a) the pipeline always returns a value
(a chunk failure is caught, never propagated), (b) a failing chunk
behaves exactly like a chunk that returned no clips — it is skipped —
and (c) when every chunk fails, the pipeline returns the backfilled
synthetic ClipSet built by refining/enriching the empty clip list
rather than raising. -/
theorem select_shorts_chunked_tolerates_failures (sel : Transcript → Option ShortsOutput)
    (tr : Transcript) (chunk_minutes : ℚ) (target : ℕ) (gap : ℚ)
    (patches : List RepairPatch)
    (h2 : 2 ≤ (splitTranscriptByTime tr chunk_minutes).length) :
    (∃ o, selectShortsChunked sel tr chunk_minutes target gap patches = some o) ∧
    selectShortsChunked sel tr chunk_minutes target gap patches =
      selectShortsChunked
        (fun c => match sel c with | none => some (⟨[], 0⟩ : ShortsOutput) | some o => some o)
        tr chunk_minutes target gap patches ∧
    ((∀ c ∈ splitTranscriptByTime tr chunk_minutes, sel c = none) →
      selectShortsChunked sel tr chunk_minutes target gap patches =
        some (pyEnrich (refineShortsOutput ⟨[], 0⟩ tr 15 60 (3/2) 0 (some (max target 5))
          (some 5)) tr patches)) := by
  have hguard : ¬ (splitTranscriptByTime tr chunk_minutes).length ≤ 1 := by omega
  refine ⟨?_, ?_, ?_⟩
  · unfold selectShortsChunked
    rw [if_neg hguard]
    dsimp only
    split_ifs
    · exact ⟨_, rfl⟩
    · exact ⟨_, rfl⟩
  · unfold selectShortsChunked
    rw [if_neg hguard, if_neg hguard]
    dsimp only
    rw [← collectChunkShorts_skip_eq]
  · intro hfail
    unfold selectShortsChunked
    rw [if_neg hguard]
    dsimp only
    rw [collectChunkShorts_all_fail sel _ hfail]
    rw [if_pos rfl]

unseal Rat.add Rat.mul Rat.inv Rat.sub in
theorem select_shorts_chunked_witness :
    (∃ o, selectShortsChunked (fun _ => none) chunkTranscript 1 5 90 [] = some o) ∧
    selectShortsChunked (fun _ => none) chunkTranscript 1 5 90 [] =
      some (pyEnrich (refineShortsOutput ⟨[], 0⟩ chunkTranscript 15 60 (3/2) 0
        (some (max 5 5)) (some 5)) chunkTranscript []) :=
  ⟨(select_shorts_chunked_tolerates_failures (fun _ => none) chunkTranscript 1 5 90 []
      (by decide)).1,
   (select_shorts_chunked_tolerates_failures (fun _ => none) chunkTranscript 1 5 90 []
      (by decide)).2.2 (fun c _ => rfl)⟩

end Shawty
